import Mathlib

/-!
# Conso / Retour: derived quantities and export of a purchase-order close-out

A shallow embedding of the logic of `src/maquette_conso_retour.jsx`:
`clampNonNeg`, `percentDeviation`, the `computedRows` and `totals` projections,
the two edit handlers (`handleRetourChange`, `handleQuickSet`, both through
`updateRetour`) and the two export payloads (`exportJSON`, `exportCSV`).

Numbers.  A JavaScript number is modelled as `JSNum`: either `NaN` or a finite
value, and finite values are exact rationals.  The arithmetic of the model is
therefore exact: IEEE-754 rounding, the two infinities and the sign of zero are
not represented.

Host functions.  What the program takes from the host and the source does not
define is either written out from ECMA-262 (`Math.round`, `toFixed`,
`Array.prototype.join`, `JSON.stringify`) or left as a parameter: `Number(value)`
on the raw text of the input element, `String(number)`, and the reading of a
number token by `JSON.parse`.

Text is modelled as `List Char` where the program builds it character by
character (CSV and JSON documents).
-/

namespace ConsoRetour

/-! ## Numbers -/

/-- A JavaScript number: `NaN`, or a finite value held as an exact rational. -/
inductive JSNum where
  | nan : JSNum
  | fin (q : ℚ) : JSNum
  deriving DecidableEq

namespace JSNum

instance : Inhabited JSNum := ⟨fin 0⟩

/-- `Number.isNaN(v)`. -/
def isNaN : JSNum → Bool
  | nan => true
  | fin _ => false

/-- `a + b`: a `NaN` operand gives `NaN`. -/
def add : JSNum → JSNum → JSNum
  | fin a, fin b => fin (a + b)
  | _, _ => nan

/-- `a - b`: a `NaN` operand gives `NaN`. -/
def sub : JSNum → JSNum → JSNum
  | fin a, fin b => fin (a - b)
  | _, _ => nan

/-- `a * b`: a `NaN` operand gives `NaN`. -/
def mul : JSNum → JSNum → JSNum
  | fin a, fin b => fin (a * b)
  | _, _ => nan

/-- `a / b`: a `NaN` operand gives `NaN`.  A zero divisor, which JavaScript sends
to an infinity or to `NaN`, is sent to `NaN` here; the program never divides by
zero (`percentDeviation` guards its divisor, the other divisor is the literal 2). -/
def div : JSNum → JSNum → JSNum
  | fin a, fin b => if b = 0 then nan else fin (a / b)
  | _, _ => nan

instance : Add JSNum := ⟨add⟩
instance : Sub JSNum := ⟨sub⟩
instance : Mul JSNum := ⟨mul⟩
instance : Div JSNum := ⟨div⟩

/-- `Math.max(a, b)`: `NaN` when an argument is `NaN`. -/
def max : JSNum → JSNum → JSNum
  | fin a, fin b => fin (Max.max a b)
  | _, _ => nan

/-- `Math.min(a, b)`: `NaN` when an argument is `NaN`. -/
def min : JSNum → JSNum → JSNum
  | fin a, fin b => fin (Min.min a b)
  | _, _ => nan

/-- `Math.round(v)`: the nearest integer, a tie going up (towards +∞). -/
def round : JSNum → JSNum
  | fin q => fin (⌊q + 1 / 2⌋ : ℤ)
  | nan => nan

/-- Truthiness of a number (`!v` is its negation): `0` and `NaN` are falsy. -/
def truthy : JSNum → Bool
  | fin q => decide (q ≠ 0)
  | nan => false

/-- `a <= b` on numbers: false as soon as an operand is `NaN`. -/
def le : JSNum → JSNum → Prop
  | fin a, fin b => a ≤ b
  | _, _ => False

/-- `a < b` on numbers: false as soon as an operand is `NaN`. -/
def lt : JSNum → JSNum → Prop
  | fin a, fin b => a < b
  | _, _ => False

instance : LE JSNum := ⟨le⟩
instance : LT JSNum := ⟨lt⟩

instance decLe (a b : JSNum) : Decidable (a ≤ b) :=
  match a, b with
  | fin x, fin y => inferInstanceAs (Decidable (x ≤ y))
  | nan, _ => isFalse (fun h => h)
  | fin _, nan => isFalse (fun h => h)

instance decLt (a b : JSNum) : Decidable (a < b) :=
  match a, b with
  | fin x, fin y => inferInstanceAs (Decidable (x < y))
  | nan, _ => isFalse (fun h => h)
  | fin _, nan => isFalse (fun h => h)

end JSNum

open JSNum

/-- Source lines 3-8: `clampNonNeg`. -/
def clampNonNeg (value : JSNum) : JSNum :=
  if value.isNaN then fin 0 else JSNum.max (fin 0) value

/-- Source lines 10-15: `percentDeviation`. -/
def percentDeviation (value reference : JSNum) : JSNum :=
  if !reference.truthy then fin 0 else ((value - reference) / reference) * fin 100

/-! ## Records and derived rows -/

/-- One element of `initialMaterials` (the `materials` state). -/
structure Material where
  id : String
  desc : String
  uom : String
  planned : JSNum
  assigned : JSNum
  issued : JSNum
  total : JSNum
  retour : JSNum
  deriving DecidableEq

/-- An element of `computedRows`: the record spread, with `retour` overwritten and
`consomme`, `delta` added. -/
structure Row extends Material where
  consomme : JSNum
  delta : JSNum
  deriving DecidableEq

/-- `Number(v)` applied to a value that already is a number: the identity. -/
def Number (v : JSNum) : JSNum := v

/-- Source lines 75-86: the body of the `materials.map` callback in `computedRows`. -/
def deriveRow (item : Material) : Row :=
  let retour := clampNonNeg (Number item.retour)
  let consomme := clampNonNeg (item.assigned - retour)
  let delta := percentDeviation consomme item.assigned
  { item with retour := retour, consomme := consomme, delta := delta }

/-- Source lines 74-87: `computedRows`. -/
def computedRows (materials : List Material) : List Row :=
  materials.map deriveRow

/-- The accumulator of the `reduce` in `totals`. -/
structure Totals where
  planned : JSNum
  assigned : JSNum
  issued : JSNum
  total : JSNum
  retour : JSNum
  consomme : JSNum
  deriving DecidableEq

/-- Source lines 89-102: `totals`, a left fold of the rows from the all-zero accumulator. -/
def totals (rows : List Row) : Totals :=
  rows.foldl
    (fun acc item =>
      { planned := acc.planned + item.planned
        assigned := acc.assigned + item.assigned
        issued := acc.issued + item.issued
        total := acc.total + item.total
        retour := acc.retour + item.retour
        consomme := acc.consomme + item.consomme })
    { planned := fin 0, assigned := fin 0, issued := fin 0, total := fin 0, retour := fin 0,
      consomme := fin 0 }

/-- The pair the view reads on every render: `computedRows` and the `totals` over them. -/
def deriveAll (records : List Material) : List Row × Totals :=
  (computedRows records, totals (computedRows records))

/-! ## The two edit handlers -/

/-- Source lines 104-115: `updateRetour`, the function handed to `setMaterials`, applied
to the current collection `prev`. -/
def updateRetour (prev : List Material) (id : String) (newValue : JSNum) : List Material :=
  prev.map (fun item =>
    if item.id = id then { item with retour := clampNonNeg newValue } else item)

/-- Source lines 117-120: `handleRetourChange`.  The raw value comes from the input
element; `toNumber` is the host coercion `Number(value)` on such values, which yields
`NaN` for text that is not numeric. -/
def handleRetourChange {Raw : Type} (toNumber : Raw → JSNum)
    (materials : List Material) (id : String) (value : Raw) : List Material :=
  let numericValue := toNumber value
  updateRetour materials id (if numericValue.isNaN then fin 0 else numericValue)

/-- Source lines 122-133: `handleQuickSet`.  The handler reads `materials` to find the
record and `updateRetour` maps over the same collection; a handler that returns without
calling `updateRetour` leaves the collection as it is. -/
def handleQuickSet (materials : List Material) (id : String) (mode : String) :
    List Material :=
  match materials.find? (fun row => row.id = id) with
  | none => materials
  | some material =>
    if mode = "zero" then updateRetour materials id (fin 0)
    else if mode = "half" then
      updateRetour materials id (JSNum.round (material.assigned / fin 2))
    else if mode = "assigned" then updateRetour materials id material.assigned
    else materials

/-- The sum of one field over the rows, added up from zero in row order. -/
def sumOf (f : Row → JSNum) (rows : List Row) : JSNum :=
  (rows.map f).foldl (· + ·) (fin 0)

/-! ## The reference definition of the specification -/

/-- The derived row as the specification words it: `consommé = max(0, assigned - retour)`
and `deltaPercent = assigned == 0 ? 0 : ((consommé - assigned) / assigned) * 100`,
the record's own fields kept. -/
def specDeriveRow (record : Material) : Row :=
  let consomme := JSNum.max (fin 0) (record.assigned - record.retour)
  let deltaPercent :=
    if record.assigned = fin 0 then fin 0
    else ((consomme - record.assigned) / record.assigned) * fin 100
  { record with consomme := consomme, delta := deltaPercent }

/-! ## Text helpers of the host -/

/-- `Array.prototype.join(sep)` on an array of strings. -/
def jsJoin (sep : List Char) : List (List Char) → List Char
  | [] => []
  | [x] => x
  | x :: y :: rest => x ++ sep ++ jsJoin sep (y :: rest)

/-- The decimal digit of `d < 10`. -/
def digitChar (d : Nat) : Char := Char.ofNat (48 + d)

/-- Worker of `natDigits`: the digits of `n` put in front of `acc`, most significant first. -/
def natDigitsAux : Nat → Nat → List Char → List Char
  | 0, _, acc => acc
  | fuel + 1, n, acc =>
    if n < 10 then digitChar n :: acc
    else natDigitsAux fuel (n / 10) (digitChar (n % 10) :: acc)

/-- The decimal representation of a natural number, `"0"` for zero. -/
def natDigits (n : Nat) : List Char := natDigitsAux (n + 1) n []

/-- `Number.prototype.toFixed(f)` for `0 ≤ f ≤ 100`, step by step as ECMA-262 gives it:
the sign is split off, `n` is the integer nearest to `x * 10^f` (the larger one at a tie),
its digits are padded with zeros to at least `f + 1` and the point is put before the last
`f`.  `numStr` is the host's `String(number)`, used for `NaN` and from `10^21` on. -/
def toFixed (numStr : JSNum → List Char) (f : Nat) : JSNum → List Char
  | nan => numStr nan
  | fin q =>
    let s := if q < 0 then ['-'] else []
    let x := |q|
    if (10 : ℚ) ^ 21 ≤ x then s ++ numStr (fin x)
    else
      let n := (⌊x * 10 ^ f + 1 / 2⌋).toNat
      let m := natDigits n
      if f = 0 then s ++ m
      else
        let m := List.replicate (f + 1 - m.length) '0' ++ m
        let k := m.length
        s ++ (m.take (k - f) ++ '.' :: m.drop (k - f))

/-! ## CSV export -/

/-- A value put in a CSV cell: a string or a number. -/
inductive Cell where
  | str (s : List Char) : Cell
  | num (v : JSNum) : Cell

/-- `String(cell)`: a string is itself, a number goes through the host's `String(number)`. -/
def cellText (numStr : JSNum → List Char) : Cell → List Char
  | Cell.str s => s
  | Cell.num v => numStr v

/-- `text.replace(/"/g, '""')`: every double quote is doubled. -/
def escapeQuotes : List Char → List Char
  | [] => []
  | c :: cs => if c = '"' then '"' :: '"' :: escapeQuotes cs else c :: escapeQuotes cs

/-- Source line 183, the template literal: the escaped text between two double quotes. -/
def quoteCell (text : List Char) : List Char :=
  '"' :: (escapeQuotes text ++ ['"'])

/-- Source lines 156-167: `headers`. -/
def csvHeaders : List Cell :=
  [Cell.str "Material".data, Cell.str "Description".data, Cell.str "UoM".data,
   Cell.str "Planned".data, Cell.str "Assigned".data, Cell.str "Issued".data,
   Cell.str "Total".data, Cell.str "Retour".data, Cell.str "Consomme".data,
   Cell.str "Delta (%)".data]

/-- Source lines 169-180: the cells of one row. -/
def csvRow (numStr : JSNum → List Char) (item : Row) : List Cell :=
  [Cell.str item.id.data, Cell.str item.desc.data, Cell.str item.uom.data,
   Cell.num item.planned, Cell.num item.assigned, Cell.num item.issued,
   Cell.num item.total, Cell.num item.retour, Cell.num item.consomme,
   Cell.str (toFixed numStr 2 item.delta)]

/-- Source lines 182-184: the encoding of a table of cells, every cell quoted, cells
joined by `;`, lines joined by a newline. -/
def csvEncode (numStr : JSNum → List Char) (table : List (List Cell)) : List Char :=
  jsJoin ['\n']
    (table.map (fun row => jsJoin [';'] (row.map (fun cell => quoteCell (cellText numStr cell)))))

/-- Source lines 155-187: `csvContent`, the document `exportCSV` hands to the download. -/
def csvContent (numStr : JSNum → List Char) (rows : List Row) : List Char :=
  csvEncode numStr (csvHeaders :: rows.map (csvRow numStr))

/-- `exportCSV` on the current state: `csvContent` of `computedRows`. -/
def exportCSV (numStr : JSNum → List Char) (materials : List Material) : List Char :=
  csvContent numStr (computedRows materials)

/-! ## JSON export -/

/-- A value held under a key of a row object, or read back from a JSON document. -/
inductive JSVal where
  | null : JSVal
  | str (s : String) : JSVal
  | num (v : JSNum) : JSVal
  deriving DecidableEq

/-- An object with string keys: its own properties in insertion order.  (Keys that are
array indices, which the host orders first, do not occur in this program.) -/
abbrev JSObject := List (String × JSVal)

/-- Reading a property: `o[key]`, `none` standing for `undefined`. -/
def objGet (o : JSObject) (key : String) : Option JSVal :=
  (o.find? (fun p => p.1 = key)).map (fun p => p.2)

/-- Writing a property: an existing key keeps its place, a new key goes last. -/
def objSet : JSObject → String → JSVal → JSObject
  | [], key, v => [(key, v)]
  | (k, w) :: rest, key, v =>
    if k = key then (k, v) :: rest else (k, w) :: objSet rest key v

/-- The object without one key (the rest of a destructuring that names `key`). -/
def objRemove (o : JSObject) (key : String) : JSObject :=
  o.filter (fun p => p.1 ≠ key)

/-- Source lines 39-48: a record as the object literal writes it, key by key. -/
def Material.toObject (item : Material) : JSObject :=
  [("id", JSVal.str item.id), ("desc", JSVal.str item.desc), ("uom", JSVal.str item.uom),
   ("planned", JSVal.num item.planned), ("assigned", JSVal.num item.assigned),
   ("issued", JSVal.num item.issued), ("total", JSVal.num item.total),
   ("retour", JSVal.num item.retour)]

/-- Source lines 80-85: the object literal `{...item, retour, consomme, delta}` of a
derived row, built by spreading the record and writing the three properties in turn. -/
def Row.toObject (row : Row) : JSObject :=
  objSet
    (objSet (objSet row.toMaterial.toObject "retour" (JSVal.num row.retour))
      "consomme" (JSVal.num row.consomme))
    "delta" (JSVal.num row.delta)

/-- Source lines 148-151: `({ delta, ...rest }) => ({ ...rest, consomme: rest.consomme })`
on one row object.  Were `rest.consomme` undefined the property would be written as
`undefined`, which `JSON.stringify` leaves out; the object is then `rest` itself. -/
def payloadOf (o : JSObject) : JSObject :=
  let rest := objRemove o "delta"
  match objGet rest "consomme" with
  | some v => objSet rest "consomme" v
  | none => rest

/-- Source lines 148-151: `payload`. -/
def exportJSONPayload (rows : List Row) : List JSObject :=
  rows.map (fun row => payloadOf row.toObject)

/-- The lower-case hexadecimal digit of `d < 16`. -/
def hexDigit (d : Nat) : Char :=
  if d < 10 then Char.ofNat (48 + d) else Char.ofNat (87 + d)

/-- ECMA-262 `QuoteJSONString`, one code point: the two-character escapes, `\u00xx` for
the other control characters, the character itself otherwise. -/
def jsonEscapeChar (c : Char) : List Char :=
  if c = '"' then ['\\', '"']
  else if c = '\\' then ['\\', '\\']
  else if c = Char.ofNat 8 then ['\\', 'b']
  else if c = Char.ofNat 12 then ['\\', 'f']
  else if c = '\n' then ['\\', 'n']
  else if c = '\r' then ['\\', 'r']
  else if c = '\t' then ['\\', 't']
  else if c.toNat < 32 then
    ['\\', 'u', '0', '0', hexDigit (c.toNat / 16), hexDigit (c.toNat % 16)]
  else [c]

/-- The escaped body of a JSON string. -/
def jsonEscape : List Char → List Char
  | [] => []
  | c :: cs => jsonEscapeChar c ++ jsonEscape cs

/-- ECMA-262 `QuoteJSONString`: the escaped text between two double quotes. -/
def jsonQuote (text : List Char) : List Char :=
  '"' :: (jsonEscape text ++ ['"'])

/-- `JSON.stringify` of a property value: a string is quoted, a finite number is printed
by the host's `String(number)`, `NaN` and `null` become `null`. -/
def jsonValue (numStr : JSNum → List Char) : JSVal → List Char
  | JSVal.null => "null".data
  | JSVal.str s => jsonQuote s.data
  | JSVal.num nan => "null".data
  | JSVal.num (fin q) => numStr (fin q)

/-- ECMA-262 `SerializeJSONObject` one level inside the array, gap of two spaces. -/
def jsonObject (numStr : JSNum → List Char) (o : JSObject) : List Char :=
  match o with
  | [] => "\x7b\x7d".data
  | _ =>
    "\x7b\n".data ++
      jsJoin ",\n".data
        (o.map (fun p => "    ".data ++ jsonQuote p.1.data ++ ": ".data ++ jsonValue numStr p.2)) ++
      "\n  \x7d".data

/-- `JSON.stringify(payload, null, 2)` on an array of objects (`SerializeJSONArray`). -/
def jsonStringify (numStr : JSNum → List Char) (payload : List JSObject) : List Char :=
  match payload with
  | [] => "[]".data
  | _ =>
    "[\n".data ++ jsJoin ",\n".data (payload.map (fun o => "  ".data ++ jsonObject numStr o)) ++
      "\n]".data

/-- Source lines 147-153: the document `exportJSON` hands to the download. -/
def exportJSON (numStr : JSNum → List Char) (materials : List Material) : List Char :=
  jsonStringify numStr (exportJSONPayload (computedRows materials))

/-! ## A reader for JSON documents of the payload's shape

`JSON.parse` restricted to what `exportJSON` can emit: an array of objects whose values
are strings, numbers or `null`, with any JSON white space between the tokens.  A number
token is the longest run of number characters; its value is read by the host, `parseNum`. -/

/-- JSON white space. -/
def isWs (c : Char) : Bool :=
  c = ' ' || c = '\n' || c = '\r' || c = '\t'

/-- Leading white space dropped. -/
def skipWs (input : List Char) : List Char := input.dropWhile isWs

/-- The characters a JSON number is made of. -/
def isNumChar (c : Char) : Bool :=
  c.isDigit || c = '-' || c = '+' || c = '.' || c = 'e' || c = 'E'

/-- The value of a hexadecimal digit. -/
def hexValue (c : Char) : Option Nat :=
  if 48 ≤ c.toNat ∧ c.toNat ≤ 57 then some (c.toNat - 48)
  else if 97 ≤ c.toNat ∧ c.toNat ≤ 102 then some (c.toNat - 87)
  else if 65 ≤ c.toNat ∧ c.toNat ≤ 70 then some (c.toNat - 55)
  else none

/-- The character a two-character escape stands for. -/
def jsonUnescape (e : Char) : Option Char :=
  if e = '"' then some '"'
  else if e = '\\' then some '\\'
  else if e = '/' then some '/'
  else if e = 'b' then some (Char.ofNat 8)
  else if e = 'f' then some (Char.ofNat 12)
  else if e = 'n' then some '\n'
  else if e = 'r' then some '\r'
  else if e = 't' then some '\t'
  else none

/-- The body of a JSON string, read from just after the opening quote up to the closing
one: the text and what follows the closing quote. -/
def jsonReadString : List Char → Option (List Char × List Char)
  | [] => none
  | c :: cs =>
    if c = '"' then some ([], cs)
    else if c = '\\' then
      match cs with
      | [] => none
      | e :: cs1 =>
        if e = 'u' then
          match cs1 with
          | h1 :: h2 :: h3 :: h4 :: cs2 =>
            match hexValue h1, hexValue h2, hexValue h3, hexValue h4, jsonReadString cs2 with
            | some a, some b, some c, some d, some (text, rest) =>
              some (Char.ofNat (((a * 16 + b) * 16 + c) * 16 + d) :: text, rest)
            | _, _, _, _, _ => none
          | _ => none
        else
          match jsonUnescape e, jsonReadString cs1 with
          | some ch, some (text, rest) => some (ch :: text, rest)
          | _, _ => none
    else if c.toNat < 32 then none
    else
      match jsonReadString cs with
      | some (text, rest) => some (c :: text, rest)
      | none => none

/-- A string, a number or `null`, read at the head of the input. -/
def jsonReadValue (parseNum : List Char → Option ℚ) (input : List Char) :
    Option (JSVal × List Char) :=
  match input with
  | [] => none
  | c :: cs =>
    if c = '"' then
      match jsonReadString cs with
      | some (text, rest) => some (JSVal.str (String.mk text), rest)
      | none => none
    else if input.take 4 = "null".data then some (JSVal.null, input.drop 4)
    else if isNumChar c then
      match parseNum (input.takeWhile isNumChar) with
      | some q => some (JSVal.num (fin q), input.dropWhile isNumChar)
      | none => none
    else none

/-- The members of an object from its first key on, written into `acc` one by one, up
to and including the closing brace. -/
def jsonReadMembers (parseNum : List Char → Option ℚ) :
    Nat → JSObject → List Char → Option (JSObject × List Char)
  | 0, _, _ => none
  | fuel + 1, acc, input =>
    match skipWs input with
    | [] => none
    | c :: cs =>
      if c = '"' then
        match jsonReadString cs with
        | none => none
        | some (key, r1) =>
          match skipWs r1 with
          | [] => none
          | c2 :: r2 =>
            if c2 = ':' then
              match jsonReadValue parseNum (skipWs r2) with
              | none => none
              | some (v, r3) =>
                match skipWs r3 with
                | [] => none
                | c3 :: r4 =>
                  if c3 = ',' then
                    jsonReadMembers parseNum fuel (objSet acc (String.mk key) v) r4
                  else if c3 = '}' then some (objSet acc (String.mk key) v, r4)
                  else none
            else none
      else none

/-- One object: the opening brace, then a closing brace or the members. -/
def jsonReadObject (parseNum : List Char → Option ℚ) (input : List Char) :
    Option (JSObject × List Char) :=
  match skipWs input with
  | [] => none
  | c :: cs =>
    if c = '{' then
      match skipWs cs with
      | [] => none
      | c1 :: cs1 =>
        if c1 = '}' then some ([], cs1)
        else jsonReadMembers parseNum cs.length [] cs
    else none

/-- The elements of the array from its first object on, up to and including the
closing bracket. -/
def jsonReadElements (parseNum : List Char → Option ℚ) :
    Nat → List Char → Option (List JSObject × List Char)
  | 0, _ => none
  | fuel + 1, input =>
    match jsonReadObject parseNum input with
    | none => none
    | some (o, r1) =>
      match skipWs r1 with
      | [] => none
      | c :: r2 =>
        if c = ',' then
          match jsonReadElements parseNum fuel r2 with
          | some (os, rest) => some (o :: os, rest)
          | none => none
        else if c = ']' then some ([o], r2)
        else none

/-- `JSON.parse` on documents of the payload's shape; `none` is a `SyntaxError`. -/
def jsonParse (parseNum : List Char → Option ℚ) (doc : List Char) : Option (List JSObject) :=
  match skipWs doc with
  | [] => none
  | c :: cs =>
    if c = '[' then
      match skipWs cs with
      | [] => none
      | c1 :: cs1 =>
        if c1 = ']' then (if skipWs cs1 = [] then some [] else none)
        else
          match jsonReadElements parseNum cs.length cs with
          | some (os, rest) => if skipWs rest = [] then some os else none
          | none => none
    else none

/-- What the host must grant about the text of one finite number for a document to be
read back: `String(number)` gives a non-empty run of number characters, and reading
that text gives the number again. -/
def NumberToken (numStr : JSNum → List Char) (parseNum : List Char → Option ℚ) (q : ℚ) :
    Prop :=
  numStr (fin q) ≠ [] ∧ (∀ c ∈ numStr (fin q), isNumChar c = true) ∧
    parseNum (numStr (fin q)) = some q

instance (numStr : JSNum → List Char) (parseNum : List Char → Option ℚ) (q : ℚ) :
    Decidable (NumberToken numStr parseNum q) := by
  unfold NumberToken
  infer_instance

/-- The property values the reader gives back as they were written: strings, `null`,
and the finite numbers whose text the host reads back. -/
def Readable (numStr : JSNum → List Char) (parseNum : List Char → Option ℚ) :
    JSVal → Prop
  | JSVal.null => True
  | JSVal.str _ => True
  | JSVal.num nan => False
  | JSVal.num (fin q) => NumberToken numStr parseNum q

/-! ## Stand-ins for the host's number text, exact on the natural numbers -/

/-- A stand-in for `String(number)`: the decimal digits of a natural number, `NaN` for
`NaN`; other values are printed by their numerator alone. -/
def sampleNumStr : JSNum → List Char
  | nan => "NaN".data
  | fin q => natDigits q.num.toNat

/-- Worker of `sampleParseNum`. -/
def sampleParseAux : List Char → Nat → Option Nat
  | [], acc => some acc
  | c :: cs, acc => if c.isDigit then sampleParseAux cs (acc * 10 + (c.toNat - 48)) else none

/-- A stand-in for the host's reading of a number token: decimal digits only. -/
def sampleParseNum (tok : List Char) : Option ℚ :=
  match tok with
  | [] => none
  | _ => (sampleParseAux tok 0).map (fun n => (n : ℚ))

/-- A stand-in for `Number(text)`: decimal digits are read, anything else is `NaN`
but for the text `-3`. -/
def sampleNumber (text : String) : JSNum :=
  if text = "-3" then fin (-3)
  else
    match sampleParseNum text.data with
    | some q => fin q
    | none => nan

/-! ## A reader for the CSV encoding -/

/-- Where the reader of a CSV document stands: before a cell, inside the quotes of a
cell, or just after a double quote met inside a cell. -/
inductive CsvMode where
  | start : CsvMode
  | inCell : CsvMode
  | quote : CsvMode

/-- One pass over the characters of a document: `rows` are the finished rows, `row` the
finished cells of the current row, `cell` the text read so far of the current cell. -/
def csvDecodeAux :
    List Char → CsvMode → List (List (List Char)) → List (List Char) → List Char →
      Option (List (List (List Char)))
  | [], CsvMode.quote, rows, row, cell => some (rows ++ [row ++ [cell]])
  | [], _, _, _, _ => none
  | c :: cs, CsvMode.start, rows, row, _ =>
    if c = '"' then csvDecodeAux cs CsvMode.inCell rows row [] else none
  | c :: cs, CsvMode.inCell, rows, row, cell =>
    if c = '"' then csvDecodeAux cs CsvMode.quote rows row cell
    else csvDecodeAux cs CsvMode.inCell rows row (cell ++ [c])
  | c :: cs, CsvMode.quote, rows, row, cell =>
    if c = '"' then csvDecodeAux cs CsvMode.inCell rows row (cell ++ ['"'])
    else if c = ';' then csvDecodeAux cs CsvMode.start rows (row ++ [cell]) []
    else if c = '\n' then csvDecodeAux cs CsvMode.start (rows ++ [row ++ [cell]]) [] []
    else none

/-- The table of cell texts a CSV document encodes; the empty document is the empty table. -/
def csvDecode (doc : List Char) : Option (List (List (List Char))) :=
  match doc with
  | [] => some []
  | _ => csvDecodeAux doc CsvMode.start [] [] []

/-! ## Sample records -/

/-- Source lines 38-69: `initialMaterials`, the seed of the `materials` state. -/
def initialMaterials : List Material :=
  [{ id := "000123451", desc := "CARTON SECONDARY 1", uom := "EA", planned := fin 16530,
     assigned := fin 2160, issued := fin 100, total := fin 2060, retour := fin 100 },
   { id := "000123452", desc := "ETIQUETTES PRIMAIRES", uom := "EA", planned := fin 10000,
     assigned := fin 9800, issued := fin 0, total := fin 9800, retour := fin 0 },
   { id := "000123453", desc := "BOUTEILLES VERRE 0.6", uom := "EA", planned := fin 16530,
     assigned := fin 16200, issued := fin 0, total := fin 16200, retour := fin 0 }]

/-- The record `{id: "A", assigned: 100, retour: 40}` of the specification's examples. -/
def recA : Material :=
  { id := "A", desc := "", uom := "EA", planned := fin 0, assigned := fin 100,
    issued := fin 0, total := fin 0, retour := fin 40 }

/-- The record `{id: "B", assigned: 0, retour: 5}` of the specification's examples. -/
def recB : Material :=
  { id := "B", desc := "", uom := "EA", planned := fin 0, assigned := fin 0,
    issued := fin 0, total := fin 0, retour := fin 5 }

/-- A record whose planned quantity is `NaN`. -/
def recNaN : Material :=
  { id := "N", desc := "", uom := "EA", planned := nan, assigned := fin 100,
    issued := fin 0, total := fin 0, retour := fin 40 }

/-- A record with an odd assigned quantity, for the tie of `Math.round`. -/
def recOdd : Material :=
  { id := "C", desc := "", uom := "EA", planned := fin 0, assigned := fin 7,
    issued := fin 0, total := fin 0, retour := fin 0 }

end ConsoRetour

/-! # Theorems -/

namespace ConsoRetour

open JSNum

namespace JSNum

@[simp] theorem fin_add (a b : ℚ) : fin a + fin b = fin (a + b) := rfl
@[simp] theorem fin_sub (a b : ℚ) : fin a - fin b = fin (a - b) := rfl
@[simp] theorem fin_mul (a b : ℚ) : fin a * fin b = fin (a * b) := rfl
@[simp] theorem fin_div (a b : ℚ) : fin a / fin b = if b = 0 then nan else fin (a / b) := rfl
@[simp] theorem nan_add (a : JSNum) : nan + a = nan := rfl
@[simp] theorem add_nan (a : JSNum) : a + nan = nan := by cases a <;> rfl
@[simp] theorem nan_sub (a : JSNum) : nan - a = nan := rfl
@[simp] theorem sub_nan (a : JSNum) : a - nan = nan := by cases a <;> rfl
@[simp] theorem nan_mul (a : JSNum) : nan * a = nan := rfl
@[simp] theorem mul_nan (a : JSNum) : a * nan = nan := by cases a <;> rfl
@[simp] theorem nan_div (a : JSNum) : nan / a = nan := rfl
@[simp] theorem div_nan (a : JSNum) : a / nan = nan := by cases a <;> rfl
@[simp] theorem max_fin (a b : ℚ) : JSNum.max (fin a) (fin b) = fin (Max.max a b) := rfl
@[simp] theorem max_nan (a : JSNum) : JSNum.max a nan = nan := by cases a <;> rfl
@[simp] theorem nan_max (a : JSNum) : JSNum.max nan a = nan := rfl
@[simp] theorem min_fin (a b : ℚ) : JSNum.min (fin a) (fin b) = fin (Min.min a b) := rfl
@[simp] theorem isNaN_fin (a : ℚ) : (fin a).isNaN = false := rfl
@[simp] theorem isNaN_nan : nan.isNaN = true := rfl
@[simp] theorem truthy_fin (a : ℚ) : (fin a).truthy = decide (a ≠ 0) := rfl
@[simp] theorem truthy_nan : nan.truthy = false := rfl
@[simp] theorem round_fin (a : ℚ) : (fin a).round = fin (⌊a + 1 / 2⌋ : ℤ) := rfl
@[simp] theorem round_nan : nan.round = nan := rfl
@[simp] theorem fin_le_fin (a b : ℚ) : (fin a ≤ fin b) = (a ≤ b) := rfl
@[simp] theorem fin_lt_fin (a b : ℚ) : (fin a < fin b) = (a < b) := rfl
@[simp] theorem nan_le (a : JSNum) : (nan ≤ a) = False := rfl
@[simp] theorem le_nan (a : JSNum) : (a ≤ nan) = False := by cases a <;> rfl
@[simp] theorem nan_lt (a : JSNum) : (nan < a) = False := rfl
@[simp] theorem lt_nan (a : JSNum) : (a < nan) = False := by cases a <;> rfl
end JSNum

@[simp] theorem clampNonNeg_fin (q : ℚ) : clampNonNeg (fin q) = fin (Max.max 0 q) := rfl
@[simp] theorem clampNonNeg_nan : clampNonNeg nan = fin 0 := rfl

theorem jsJoin_cons (sep x : List Char) (xs : List (List Char)) :
    jsJoin sep (x :: xs) = x ++ (xs.map (fun y => sep ++ y)).flatten := by
  induction xs generalizing x with
  | nil => simp [jsJoin]
  | cons y ys ih => simp [jsJoin, ih y, List.append_assoc]

theorem jsJoin_cons_of_ne_nil (sep x : List Char) (l : List (List Char)) (h : l ≠ []) :
    jsJoin sep (x :: l) = x ++ sep ++ jsJoin sep l := by
  cases l with
  | nil => exact absurd rfl h
  | cons y ys => rfl


/-- C1. For every record with `assigned >= 0` and `retour >= 0`, `deriveRow` is the
reference definition of the specification: `consomme = max(0, assigned - retour)`,
`delta = 0` when `assigned == 0` and `((consomme - assigned) / assigned) * 100` otherwise,
the record's own fields kept; and `consomme >= 0`, whatever the order of `retour` and
`assigned`. -/
theorem deriveRow_eq_spec (item : Material)
    (ha : fin 0 ≤ item.assigned) (hr : fin 0 ≤ item.retour) :
    deriveRow item = specDeriveRow item ∧ fin 0 ≤ (deriveRow item).consomme := by
  obtain ⟨id, desc, uom, planned, assigned, issued, total, retour⟩ := item
  cases assigned with
  | nan => simp at ha
  | fin a =>
    cases retour with
    | nan => simp at hr
    | fin r =>
      simp at ha hr
      simp [deriveRow, specDeriveRow, Number, percentDeviation, hr]


theorem totals_foldl_eq (rows : List Row) (acc : Totals) :
    rows.foldl
      (fun acc item =>
        ({ planned := acc.planned + item.planned
           assigned := acc.assigned + item.assigned
           issued := acc.issued + item.issued
           total := acc.total + item.total
           retour := acc.retour + item.retour
           consomme := acc.consomme + item.consomme } : Totals)) acc =
    { planned := (rows.map (·.planned)).foldl (· + ·) acc.planned
      assigned := (rows.map (·.assigned)).foldl (· + ·) acc.assigned
      issued := (rows.map (·.issued)).foldl (· + ·) acc.issued
      total := (rows.map (·.total)).foldl (· + ·) acc.total
      retour := (rows.map (·.retour)).foldl (· + ·) acc.retour
      consomme := (rows.map (·.consomme)).foldl (· + ·) acc.consomme } := by
  induction rows generalizing acc with
  | nil => rfl
  | cons r rs ih => simp only [List.foldl_cons, List.map_cons, ih]

/-- C2. `deriveAll` is map-then-fold: the derived rows are `deriveRow` of each record in
input order (same length, same id at every position) and each of the six totals is the sum
of its field over the derived rows; for the empty collection there are no rows and the six
totals are 0. -/
theorem deriveAll_map_fold (records : List Material) :
    (deriveAll records).1 = records.map deriveRow ∧
    (deriveAll records).1.length = records.length ∧
    (∀ (i : Nat) (h : i < records.length),
      ((deriveAll records).1[i]?).map (·.id) = some (records[i].id)) ∧
    (deriveAll records).2 =
      { planned := sumOf (·.planned) (deriveAll records).1
        assigned := sumOf (·.assigned) (deriveAll records).1
        issued := sumOf (·.issued) (deriveAll records).1
        total := sumOf (·.total) (deriveAll records).1
        retour := sumOf (·.retour) (deriveAll records).1
        consomme := sumOf (·.consomme) (deriveAll records).1 } ∧
    (deriveAll []).1 = [] ∧
    (deriveAll []).2 =
      { planned := fin 0, assigned := fin 0, issued := fin 0, total := fin 0, retour := fin 0,
        consomme := fin 0 } := by
  refine ⟨rfl, by simp [deriveAll, computedRows], ?_, ?_, rfl, rfl⟩
  · intro i h
    simp [deriveAll, computedRows, List.getElem?_map, List.getElem?_eq_getElem h, deriveRow]
  · simp only [deriveAll, totals, sumOf]
    exact totals_foldl_eq _ _

theorem updateRetour_length (prev : List Material) (id : String) (v : JSNum) :
    (updateRetour prev id v).length = prev.length := by
  simp [updateRetour]

theorem updateRetour_getElem_opt (prev : List Material) (id : String) (v : JSNum) (i : Nat) :
    (updateRetour prev id v)[i]? =
      (prev[i]?).map (fun item =>
        if item.id = id then { item with retour := clampNonNeg v } else item) := by
  simp [updateRetour, List.getElem?_map]

theorem updateRetour_absent (prev : List Material) (id : String) (v : JSNum)
    (h : ∀ m ∈ prev, m.id ≠ id) : updateRetour prev id v = prev := by
  unfold updateRetour
  conv_rhs => rw [← List.map_id prev]
  apply List.map_congr_left
  intro m hm
  simp [h m hm]

theorem find_id_of_nodup (ms : List Material) (id : String)
    (hnodup : (ms.map (·.id)).Nodup) (i : Nat) (h : i < ms.length) (hid : ms[i].id = id) :
    ms.find? (fun row => row.id = id) = some ms[i] := by
  induction ms generalizing i with
  | nil => simp at h
  | cons m rest ih =>
    rw [List.map_cons, List.nodup_cons] at hnodup
    cases i with
    | zero =>
      simp only [List.getElem_cons_zero] at hid
      simp [List.find?_cons, hid]
    | succ j =>
      simp only [List.getElem_cons_succ] at hid
      have hj : j < rest.length := by simpa using h
      have hne : m.id ≠ id := by
        intro he
        apply hnodup.1
        rw [he, ← hid]
        exact List.mem_map_of_mem _ (List.getElem_mem hj)
      simp only [List.find?_cons, hne, decide_False, List.getElem_cons_succ]
      exact ih hnodup.2 j hj hid

theorem find_id_none (ms : List Material) (id : String) (h : ∀ m ∈ ms, m.id ≠ id) :
    ms.find? (fun row => row.id = id) = none := by
  simp [List.find?_eq_none]
  exact h

/-- C3. `handleRetourChange` (through `updateRetour`) is total and clamps: when the id
is present, the result still holds a record with that id, and every record with that id
stores 0 when the raw value coerces to `NaN` or to a negative number, and the coerced
number otherwise; so its `retour` is `>= 0`. -/
theorem setRetour_clamps {Raw : Type} (toNumber : Raw → JSNum) (ms : List Material)
    (id : String) (raw : Raw) (hid : ∃ m ∈ ms, m.id = id) :
    (∃ m ∈ handleRetourChange toNumber ms id raw, m.id = id) ∧
    ∀ m ∈ handleRetourChange toNumber ms id raw, m.id = id →
      m.retour =
          (if (toNumber raw).isNaN = true ∨ toNumber raw < fin 0 then fin 0
           else toNumber raw) ∧
        fin 0 ≤ m.retour := by
  constructor
  · obtain ⟨m, hm, hmid⟩ := hid
    let v := clampNonNeg (if (toNumber raw).isNaN then fin 0 else toNumber raw)
    refine ⟨{ m with retour := v }, ?_, hmid⟩
    simp only [handleRetourChange, updateRetour, List.mem_map]
    exact ⟨m, hm, by simp [hmid, v]⟩
  · intro m hm hmid
    simp only [handleRetourChange, updateRetour, List.mem_map] at hm
    obtain ⟨m0, _, rfl⟩ := hm
    by_cases h0 : m0.id = id
    · simp only [h0, if_true]
      cases hv : toNumber raw with
      | nan => simp
      | fin q =>
        simp only [isNaN_fin, Bool.false_eq_true, if_false, clampNonNeg_fin, false_or,
          fin_lt_fin, fin_le_fin]
        by_cases hq : q < 0
        · simp [hq, max_eq_left (le_of_lt hq)]
        · simp [hq, max_eq_right (not_lt.mp hq), not_lt.mp hq]
    · simp only [h0, if_false] at hmid


/-- Math.round at a half-integer goes up. -/
theorem round_odd_half (k : ℕ) :
    JSNum.round (fin ((2 * k + 1 : ℕ) : ℚ) / fin 2) = fin ((k + 1 : ℕ) : ℚ) := by
  simp only [fin_div, round_fin, OfNat.ofNat_ne_zero, if_false, JSNum.fin.injEq]
  have : (((2 * k + 1 : ℕ) : ℚ) / 2 + 1 / 2) = ((k + 1 : ℤ) : ℚ) := by
    push_cast; ring
  rw [this, Int.floor_intCast]
  push_cast; rfl

theorem round_nearest (q : ℚ) :
    ∃ n : ℤ, JSNum.round (fin q) = fin (n : ℚ) ∧ q - 1 / 2 < n ∧ (n : ℚ) ≤ q + 1 / 2 := by
  refine ⟨⌊q + 1 / 2⌋, rfl, ?_, Int.floor_le _⟩
  have := Int.lt_floor_add_one (q + 1 / 2)
  linarith

theorem clamp_round_half (a : ℚ) (ha : 0 ≤ a) :
    clampNonNeg (JSNum.round (fin a / fin 2)) = JSNum.round (fin a / fin 2) := by
  simp only [fin_div, OfNat.ofNat_ne_zero, if_false, round_fin, clampNonNeg_fin,
    JSNum.fin.injEq]
  apply max_eq_right
  have : (0 : ℤ) ≤ ⌊a / 2 + 1 / 2⌋ := Int.floor_nonneg.mpr (by positivity)
  exact_mod_cast this

/-- C4. In a collection with unique ids, for the record at position `i` with
`assigned >= 0`, `handleQuickSet` on its id leaves at position `i` that record with
`retour = 0` for mode `zero`, `retour = assigned` for mode `assigned` and
`retour = Math.round(assigned / 2)` for mode `half`; `Math.round` gives the nearest
integer, a tie going up, so an odd `assigned = 2k + 1` gives `k + 1`. -/
theorem quickSet_modes (ms : List Material) (id : String)
    (hnodup : (ms.map (·.id)).Nodup) (i : Nat) (h : i < ms.length)
    (hid : ms[i].id = id) (ha : fin 0 ≤ ms[i].assigned) :
    (handleQuickSet ms id "zero")[i]? = some { ms[i] with retour := fin 0 } ∧
    (handleQuickSet ms id "assigned")[i]? = some { ms[i] with retour := ms[i].assigned } ∧
    (handleQuickSet ms id "half")[i]? =
      some { ms[i] with retour := JSNum.round (ms[i].assigned / fin 2) } ∧
    (∀ q : ℚ, ∃ n : ℤ,
      JSNum.round (fin q) = fin (n : ℚ) ∧ q - 1 / 2 < n ∧ (n : ℚ) ≤ q + 1 / 2) ∧
    (∀ k : ℕ, ms[i].assigned = fin ((2 * k + 1 : ℕ) : ℚ) →
      (handleQuickSet ms id "half")[i]? =
        some { ms[i] with retour := fin ((k + 1 : ℕ) : ℚ) }) := by
  have hfind := find_id_of_nodup ms id hnodup i h hid
  have hget : ms[i]? = some ms[i] := List.getElem?_eq_getElem h
  cases hass : ms[i].assigned with
  | nan => rw [hass] at ha; simp at ha
  | fin a =>
    rw [hass] at ha
    simp only [fin_le_fin] at ha
    have hz : (handleQuickSet ms id "zero")[i]? = some { ms[i] with retour := fin 0 } := by
      simp [handleQuickSet, hfind, updateRetour_getElem_opt, hget, hid]
    have hasg : (handleQuickSet ms id "assigned")[i]? =
        some { ms[i] with retour := fin a } := by
      simp [handleQuickSet, hfind, updateRetour_getElem_opt, hget, hid, hass, ha]
    have hhalf : (handleQuickSet ms id "half")[i]? =
        some { ms[i] with retour := JSNum.round (fin a / fin 2) } := by
      have hm : ("half" = "zero") = False := by decide
      simp only [handleQuickSet, hfind, hm, if_false, if_true, hass]
      rw [updateRetour_getElem_opt, hget, Option.map_some', if_pos hid, clamp_round_half a ha]
      simp only [hass]
    refine ⟨hz, hasg, hhalf, round_nearest, ?_⟩
    intro k hk
    rw [hhalf]
    injection hk with hk
    rw [hk, round_odd_half]


theorem handleQuickSet_cases (ms : List Material) (id : String) (mode : String) :
    handleQuickSet ms id mode = ms ∨ ∃ v, handleQuickSet ms id mode = updateRetour ms id v := by
  unfold handleQuickSet
  split
  · exact Or.inl rfl
  · split
    · exact Or.inr ⟨_, rfl⟩
    · split
      · exact Or.inr ⟨_, rfl⟩
      · split
        · exact Or.inr ⟨_, rfl⟩
        · exact Or.inl rfl

theorem updateRetour_frame (ms : List Material) (id : String) (v : JSNum) (i : Nat)
    (h : i < ms.length) :
    (ms[i].id ≠ id → (updateRetour ms id v)[i]? = some ms[i]) ∧
    ∃ w, (updateRetour ms id v)[i]? = some { ms[i] with retour := w } := by
  rw [updateRetour_getElem_opt, List.getElem?_eq_getElem h, Option.map_some']
  constructor
  · intro hne; rw [if_neg hne]
  · by_cases hid : ms[i].id = id
    · exact ⟨clampNonNeg v, by rw [if_pos hid]⟩
    · exact ⟨ms[i].retour, by rw [if_neg hid]⟩

/-- C5. `handleRetourChange` and `handleQuickSet` keep the length and the order, leave
every record whose id differs from the given one as it is, and change at most `retour` in
the others; with an id that no record has both return the collection itself, and so does
`handleQuickSet` with a mode other than `zero`, `half`, `assigned`. -/
theorem edits_frame {Raw : Type} (toNumber : Raw → JSNum) (ms : List Material)
    (id : String) (raw : Raw) (mode : String) :
    ((handleRetourChange toNumber ms id raw).length = ms.length ∧
      (handleQuickSet ms id mode).length = ms.length) ∧
    (∀ (i : Nat) (h : i < ms.length), ms[i].id ≠ id →
      (handleRetourChange toNumber ms id raw)[i]? = some ms[i] ∧
      (handleQuickSet ms id mode)[i]? = some ms[i]) ∧
    (∀ (i : Nat) (h : i < ms.length),
      (∃ v, (handleRetourChange toNumber ms id raw)[i]? = some { ms[i] with retour := v }) ∧
      (∃ v, (handleQuickSet ms id mode)[i]? = some { ms[i] with retour := v })) ∧
    ((∀ m ∈ ms, m.id ≠ id) →
      handleRetourChange toNumber ms id raw = ms ∧ handleQuickSet ms id mode = ms) ∧
    (mode ≠ "zero" → mode ≠ "half" → mode ≠ "assigned" → handleQuickSet ms id mode = ms) := by
  refine ⟨⟨updateRetour_length _ _ _, ?_⟩, ?_, ?_, ?_, ?_⟩
  · rcases handleQuickSet_cases ms id mode with h | ⟨v, h⟩ <;> rw [h]
    exact updateRetour_length _ _ _
  · intro i h hne
    refine ⟨(updateRetour_frame ms id _ i h).1 hne, ?_⟩
    rcases handleQuickSet_cases ms id mode with hq | ⟨v, hq⟩ <;> rw [hq]
    · exact List.getElem?_eq_getElem h
    · exact (updateRetour_frame ms id v i h).1 hne
  · intro i h
    refine ⟨(updateRetour_frame ms id _ i h).2, ?_⟩
    rcases handleQuickSet_cases ms id mode with hq | ⟨v, hq⟩ <;> rw [hq]
    · exact ⟨ms[i].retour, List.getElem?_eq_getElem h⟩
    · exact (updateRetour_frame ms id v i h).2
  · intro habs
    refine ⟨updateRetour_absent ms id _ habs, ?_⟩
    simp only [handleQuickSet, find_id_none ms id habs]
  · intro h1 h2 h3
    unfold handleQuickSet
    split
    · rfl
    · simp only [h1, h2, h3, if_false]


/-! ## Text helpers -/

theorem escapeQuotes_eq_flatMap (text : List Char) :
    escapeQuotes text = text.flatMap (fun c => if c = '"' then ['"', '"'] else [c]) := by
  induction text with
  | nil => rfl
  | cons c cs ih =>
    by_cases h : c = '"' <;> simp [escapeQuotes, h, ih, List.flatMap_cons]

theorem digitChar_isDigit (d : Nat) (h : d < 10) : (digitChar d).isDigit = true := by
  interval_cases d <;> decide

theorem natDigitsAux_digits (fuel n : Nat) (acc : List Char)
    (hacc : ∀ c ∈ acc, c.isDigit = true) :
    ∀ c ∈ natDigitsAux fuel n acc, c.isDigit = true := by
  induction fuel generalizing n acc with
  | zero => simpa [natDigitsAux] using hacc
  | succ fuel ih =>
    unfold natDigitsAux
    split
    · intro c hc
      rcases List.mem_cons.mp hc with rfl | hc
      · exact digitChar_isDigit n (by assumption)
      · exact hacc c hc
    · apply ih
      intro c hc
      rcases List.mem_cons.mp hc with rfl | hc
      · exact digitChar_isDigit _ (Nat.mod_lt _ (by decide))
      · exact hacc c hc

theorem natDigitsAux_length (fuel n : Nat) (acc : List Char) :
    acc.length ≤ (natDigitsAux fuel n acc).length := by
  induction fuel generalizing n acc with
  | zero => simp [natDigitsAux]
  | succ fuel ih =>
    unfold natDigitsAux
    split
    · simp
    · exact le_trans (by simp) (ih _ _)

theorem natDigits_digits (n : Nat) : ∀ c ∈ natDigits n, c.isDigit = true :=
  natDigitsAux_digits _ _ _ (by simp)

theorem natDigits_length_pos (n : Nat) : 0 < (natDigits n).length := by
  unfold natDigits natDigitsAux
  split
  · simp
  · exact lt_of_lt_of_le (by simp) (natDigitsAux_length _ _ _)

/-- The shape of `toFixed(2)` below `10^21`: an optional minus sign, at least one digit,
the point, two digits. -/
theorem toFixed_two_shape (numStr : JSNum → List Char) (q : ℚ) (hq : |q| < 10 ^ 21) :
    ∃ (sign whole : List Char) (d1 d2 : Char),
      toFixed numStr 2 (fin q) = sign ++ whole ++ ['.', d1, d2] ∧
      (sign = [] ∨ sign = ['-']) ∧ whole ≠ [] ∧
      (∀ c ∈ whole, c.isDigit = true) ∧ d1.isDigit = true ∧ d2.isDigit = true := by
  simp only [toFixed, not_le.mpr hq, if_false]
  generalize (⌊|q| * 10 ^ 2 + 1 / 2⌋).toNat = n
  generalize hm : List.replicate (2 + 1 - (natDigits n).length) '0' ++ natDigits n = m
  have hdig : ∀ c ∈ m, c.isDigit = true := by
    intro c hc
    rw [← hm] at hc
    rcases List.mem_append.mp hc with hc | hc
    · rw [List.eq_of_mem_replicate hc]; decide
    · exact natDigits_digits n c hc
  have hlen : 3 ≤ m.length := by
    rw [← hm, List.length_append, List.length_replicate]; omega
  have hdrop : (m.drop (m.length - 2)).length = 2 := by
    rw [List.length_drop]; omega
  obtain ⟨d1, d2, hd⟩ : ∃ d1 d2, m.drop (m.length - 2) = [d1, d2] := by
    match hx : m.drop (m.length - 2), hdrop with
    | [a, b], _ => exact ⟨a, b, rfl⟩
  refine ⟨if q < 0 then ['-'] else [], m.take (m.length - 2), d1, d2, ?_, ?_, ?_, ?_, ?_, ?_⟩
  · simp [hd, List.append_assoc]
  · by_cases h : q < 0 <;> simp [h]
  · intro h
    have := congrArg List.length h
    rw [List.length_take] at this
    simp at this
    omega
  · intro c hc
    exact hdig c (List.mem_of_mem_take hc)
  · apply hdig
    have : d1 ∈ m.drop (m.length - 2) := by rw [hd]; simp
    exact List.mem_of_mem_drop this
  · apply hdig
    have : d2 ∈ m.drop (m.length - 2) := by rw [hd]; simp
    exact List.mem_of_mem_drop this

/-- Every derived row has a finite `delta` between -100 and 0. -/
theorem deriveRow_delta_range (item : Material) :
    ∃ d : ℚ, (deriveRow item).delta = fin d ∧ -100 ≤ d ∧ d ≤ 0 := by
  obtain ⟨id, desc, uom, planned, assigned, issued, total, retour⟩ := item
  have hret : ∃ r : ℚ, clampNonNeg (Number retour) = fin r ∧ 0 ≤ r := by
    cases retour with
    | nan => exact ⟨0, rfl, le_refl _⟩
    | fin r => exact ⟨Max.max 0 r, rfl, le_max_left _ _⟩
  obtain ⟨r, hr, hr0⟩ := hret
  simp only [deriveRow, hr]
  cases assigned with
  | nan => exact ⟨0, by simp [percentDeviation], by norm_num, le_refl _⟩
  | fin a =>
    by_cases ha0 : a = 0
    · exact ⟨0, by simp [percentDeviation, ha0], by norm_num, le_refl _⟩
    · simp only [percentDeviation, fin_sub, clampNonNeg_fin, truthy_fin, ne_eq, ha0,
        not_false_eq_true, decide_True, Bool.not_true, Bool.false_eq_true, if_false,
        fin_div, fin_mul]
      refine ⟨_, rfl, ?_, ?_⟩
      · rcases lt_or_gt_of_ne ha0 with hneg | hpos
        · have h1 : Max.max 0 (a - r) = 0 := max_eq_left (by linarith)
          rw [h1]
          have : (0 - a) / a * 100 = -100 := by field_simp
          rw [this]
        · have hc : 0 ≤ Max.max 0 (a - r) := le_max_left _ _
          have : -1 ≤ (Max.max 0 (a - r) - a) / a := by
            rw [le_div_iff₀ hpos]; linarith
          linarith
      · rcases lt_or_gt_of_ne ha0 with hneg | hpos
        · have h1 : Max.max 0 (a - r) = 0 := max_eq_left (by linarith)
          rw [h1]
          have : (0 - a) / a * 100 = -100 := by field_simp
          rw [this]; norm_num
        · have hc : Max.max 0 (a - r) ≤ a := max_le (le_of_lt hpos) (by linarith)
          have : (Max.max 0 (a - r) - a) / a ≤ 0 :=
            div_nonpos_of_nonpos_of_nonneg (by linarith) (le_of_lt hpos)
          linarith


theorem csvContent_eq (numStr : JSNum → List Char) (rows : List Row) :
    csvContent numStr rows =
      "\"Material\";\"Description\";\"UoM\";\"Planned\";\"Assigned\";\"Issued\";\"Total\";\"Retour\";\"Consomme\";\"Delta (%)\"".data ++
      (rows.map (fun r =>
        '\n' :: (quoteCell r.id.data ++ ';' :: (quoteCell r.desc.data ++ ';' ::
          (quoteCell r.uom.data ++ ';' :: (quoteCell (numStr r.planned) ++ ';' ::
          (quoteCell (numStr r.assigned) ++ ';' :: (quoteCell (numStr r.issued) ++ ';' ::
          (quoteCell (numStr r.total) ++ ';' :: (quoteCell (numStr r.retour) ++ ';' ::
          (quoteCell (numStr r.consomme) ++ ';' ::
            quoteCell (toFixed numStr 2 r.delta)))))))))))).flatten := by
  simp only [csvContent, csvEncode, List.map_cons, jsJoin_cons, List.map_map]
  congr 1
  congr 1
  apply List.map_congr_left
  intro r _
  simp [csvRow, jsJoin_cons, cellText]

/-- C6. The document of `exportCSV`: the header line, the ten names quoted and joined by
`;`, whatever the rows; then, for each derived row in input order, a newline and the ten
quoted cells `id, desc, uom, planned, assigned, issued, total, retour, consomme,
delta.toFixed(2)` joined by `;`.  A quoted cell is the text between double quotes with
every inner double quote doubled; `delta.toFixed(2)` is an optional minus sign, at least
one digit, a point and exactly two digits; the document ends with a double quote (no
trailing newline); with no rows it is the header line alone. -/
theorem csv_layout (numStr : JSNum → List Char) (materials : List Material) :
    exportCSV numStr materials =
      "\"Material\";\"Description\";\"UoM\";\"Planned\";\"Assigned\";\"Issued\";\"Total\";\"Retour\";\"Consomme\";\"Delta (%)\"".data ++
      ((computedRows materials).map (fun r =>
        '\n' :: (quoteCell r.id.data ++ ';' :: (quoteCell r.desc.data ++ ';' ::
          (quoteCell r.uom.data ++ ';' :: (quoteCell (numStr r.planned) ++ ';' ::
          (quoteCell (numStr r.assigned) ++ ';' :: (quoteCell (numStr r.issued) ++ ';' ::
          (quoteCell (numStr r.total) ++ ';' :: (quoteCell (numStr r.retour) ++ ';' ::
          (quoteCell (numStr r.consomme) ++ ';' ::
            quoteCell (toFixed numStr 2 r.delta)))))))))))).flatten ∧
    (∀ text : List Char,
      quoteCell text =
        '"' :: (text.flatMap (fun c => if c = '"' then ['"', '"'] else [c]) ++ ['"'])) ∧
    (∀ r ∈ computedRows materials,
      ∃ (sign whole : List Char) (d1 d2 : Char),
        toFixed numStr 2 r.delta = sign ++ whole ++ ['.', d1, d2] ∧
        (sign = [] ∨ sign = ['-']) ∧ whole ≠ [] ∧
        (∀ c ∈ whole, c.isDigit = true) ∧ d1.isDigit = true ∧ d2.isDigit = true) ∧
    (exportCSV numStr materials).getLast? = some '"' ∧
    exportCSV numStr [] =
      "\"Material\";\"Description\";\"UoM\";\"Planned\";\"Assigned\";\"Issued\";\"Total\";\"Retour\";\"Consomme\";\"Delta (%)\"".data := by
  refine ⟨csvContent_eq numStr _, ?_, ?_, ?_, ?_⟩
  · intro text
    rw [quoteCell, escapeQuotes_eq_flatMap]
  · intro r hr
    simp only [computedRows, List.mem_map] at hr
    obtain ⟨item, _, rfl⟩ := hr
    obtain ⟨d, hd, h1, h2⟩ := deriveRow_delta_range item
    rw [hd]
    apply toFixed_two_shape
    rw [abs_lt]
    have hbig : (0 : ℚ) < 10 ^ 21 := by positivity
    constructor <;> linarith
  · rw [exportCSV, csvContent_eq]
    induction computedRows materials using List.reverseRecOn with
    | nil => rfl
    | append_singleton rs r _ =>
      simp only [List.map_append, List.map_cons, List.map_nil, List.flatten_append,
        List.flatten_cons, List.flatten_nil, List.append_nil]
      generalize toFixed numStr 2 r.delta = last
      simp only [quoteCell, ← List.cons_append, ← List.append_assoc, List.getLast?_concat]
  · rw [exportCSV, csvContent_eq]
    rfl


/-! ## The CSV encoding can be read back -/

theorem csvDecodeAux_start (c : Char) (cs : List Char) (rows : List (List (List Char)))
    (row : List (List Char)) (cell : List Char) :
    csvDecodeAux (c :: cs) CsvMode.start rows row cell =
      if c = '"' then csvDecodeAux cs CsvMode.inCell rows row [] else none := rfl

theorem csvDecodeAux_inCell (c : Char) (cs : List Char) (rows : List (List (List Char)))
    (row : List (List Char)) (cell : List Char) :
    csvDecodeAux (c :: cs) CsvMode.inCell rows row cell =
      if c = '"' then csvDecodeAux cs CsvMode.quote rows row cell
      else csvDecodeAux cs CsvMode.inCell rows row (cell ++ [c]) := rfl

theorem csvDecodeAux_quote (c : Char) (cs : List Char) (rows : List (List (List Char)))
    (row : List (List Char)) (cell : List Char) :
    csvDecodeAux (c :: cs) CsvMode.quote rows row cell =
      if c = '"' then csvDecodeAux cs CsvMode.inCell rows row (cell ++ ['"'])
      else if c = ';' then csvDecodeAux cs CsvMode.start rows (row ++ [cell]) []
      else if c = '\n' then csvDecodeAux cs CsvMode.start (rows ++ [row ++ [cell]]) [] []
      else none := rfl

theorem csvDecodeAux_quote_nil (rows : List (List (List Char)))
    (row : List (List Char)) (cell : List Char) :
    csvDecodeAux [] CsvMode.quote rows row cell = some (rows ++ [row ++ [cell]]) := rfl

theorem csvDecodeAux_escape (t rest : List Char) (rows : List (List (List Char)))
    (row : List (List Char)) (cell : List Char) :
    csvDecodeAux (escapeQuotes t ++ '"' :: rest) CsvMode.inCell rows row cell =
      csvDecodeAux rest CsvMode.quote rows row (cell ++ t) := by
  induction t generalizing cell with
  | nil => simp [escapeQuotes, csvDecodeAux_inCell]
  | cons c cs ih =>
    by_cases h : c = '"'
    · subst h
      simp only [escapeQuotes, if_true, List.cons_append, csvDecodeAux_inCell,
        csvDecodeAux_quote]
      rw [ih]; simp
    · simp only [escapeQuotes, h, if_false, List.cons_append, csvDecodeAux_inCell]
      rw [ih]; simp

theorem csvDecodeAux_quoteCell (t rest : List Char) (rows : List (List (List Char)))
    (row : List (List Char)) (cell : List Char) :
    csvDecodeAux (quoteCell t ++ rest) CsvMode.start rows row cell =
      csvDecodeAux rest CsvMode.quote rows row t := by
  simp only [quoteCell, List.cons_append, List.append_assoc, List.singleton_append,
    csvDecodeAux_start, if_true]
  rw [csvDecodeAux_escape]; simp

theorem csvDecodeAux_line (init : List (List Char)) (last rest : List Char)
    (rows : List (List (List Char))) (row : List (List Char)) (cell : List Char) :
    csvDecodeAux (jsJoin [';'] ((init ++ [last]).map quoteCell) ++ rest)
        CsvMode.start rows row cell =
      csvDecodeAux rest CsvMode.quote rows (row ++ init) last := by
  induction init generalizing row cell with
  | nil => simp [jsJoin, csvDecodeAux_quoteCell]
  | cons c cs ih =>
    have hne : (cs ++ [last]).map quoteCell ≠ [] := by simp
    rw [List.cons_append, List.map_cons, jsJoin_cons_of_ne_nil _ _ _ hne]
    rw [List.append_assoc, List.append_assoc, csvDecodeAux_quoteCell, List.singleton_append,
      csvDecodeAux_quote]
    have h1 : ¬ (';' = '"') := by decide
    simp only [h1, if_false, if_true]
    rw [ih]; simp

theorem csvDecodeAux_table (r : List (List Char)) (rs : List (List (List Char)))
    (done : List (List (List Char))) (hr : r ≠ []) (hrs : ∀ x ∈ rs, x ≠ []) :
    csvDecodeAux
        (jsJoin ['\n'] ((r :: rs).map (fun row => jsJoin [';'] (row.map quoteCell))))
        CsvMode.start done [] [] =
      some (done ++ r :: rs) := by
  induction rs generalizing r done with
  | nil =>
    obtain ⟨init, last, rfl⟩ : ∃ init last, r = init ++ [last] :=
      ⟨r.dropLast, r.getLast hr, (List.dropLast_append_getLast hr).symm⟩
    have := csvDecodeAux_line init last [] done [] []
    simp only [List.append_nil] at this
    simp only [List.map_cons, List.map_nil, jsJoin, this, csvDecodeAux_quote_nil,
      List.nil_append]
  | cons r2 rs ih =>
    obtain ⟨init, last, rfl⟩ : ∃ init last, r = init ++ [last] :=
      ⟨r.dropLast, r.getLast hr, (List.dropLast_append_getLast hr).symm⟩
    rw [List.map_cons, jsJoin_cons_of_ne_nil _ _ _ (by simp), List.append_assoc,
      csvDecodeAux_line]
    simp only [List.singleton_append, csvDecodeAux_quote, List.nil_append]
    have h1 : ¬ ('\n' = '"') := by decide
    have h2 : ¬ ('\n' = ';') := by decide
    simp only [h1, h2, if_false, if_true]
    rw [ih r2 _ (hrs r2 (by simp)) (fun x hx => hrs x (by simp [hx]))]
    simp

theorem csvEncode_str (numStr : JSNum → List Char) (t : List (List (List Char))) :
    csvEncode numStr (t.map (fun row => row.map Cell.str)) =
      jsJoin ['\n'] (t.map (fun row => jsJoin [';'] (row.map quoteCell))) := by
  simp only [csvEncode, List.map_map]
  congr 1
  apply List.map_congr_left
  intro row _
  simp only [Function.comp, List.map_map]
  congr 1

theorem csvDecode_encode (numStr : JSNum → List Char) (t : List (List (List Char)))
    (h : ∀ r ∈ t, r ≠ []) :
    csvDecode (csvEncode numStr (t.map (fun row => row.map Cell.str))) = some t := by
  rw [csvEncode_str]
  cases t with
  | nil => rfl
  | cons r rs =>
    have hr : r ≠ [] := h r (by simp)
    have key := csvDecodeAux_table r rs [] hr (fun x hx => h x (by simp [hx]))
    simp only [List.nil_append] at key
    unfold csvDecode
    split
    · rename_i heq
      rw [heq] at key
      simp [csvDecodeAux] at key
    · exact key

theorem skipWs_cons_of_not_ws (c : Char) (cs : List Char) (h : isWs c = false) :
    skipWs (c :: cs) = c :: cs := by
  simp [skipWs, List.dropWhile_cons, h]

theorem skipWs_cons_of_ws (c : Char) (cs : List Char) (h : isWs c = true) :
    skipWs (c :: cs) = skipWs cs := by
  simp [skipWs, List.dropWhile_cons, h]

theorem skipWs_space (cs : List Char) : skipWs (' ' :: cs) = skipWs cs :=
  skipWs_cons_of_ws _ _ (by decide)

theorem skipWs_newline (cs : List Char) : skipWs ('\n' :: cs) = skipWs cs :=
  skipWs_cons_of_ws _ _ (by decide)

theorem skipWs_quote (cs : List Char) : skipWs ('"' :: cs) = '"' :: cs :=
  skipWs_cons_of_not_ws _ _ (by decide)

theorem skipWs_idem (input : List Char) : skipWs (skipWs input) = skipWs input := by
  induction input with
  | nil => rfl
  | cons c cs ih =>
    by_cases h : isWs c = true
    · rw [skipWs_cons_of_ws c cs h, ih]
    · have h' : isWs c = false := by simpa using h
      rw [skipWs_cons_of_not_ws c cs h', skipWs_cons_of_not_ws c cs h']

theorem hexValue_hexDigit (d : Nat) (h : d < 16) : hexValue (hexDigit d) = some d := by
  interval_cases d <;> decide

theorem jsonReadString_cons (c : Char) (cs : List Char) :
    jsonReadString (c :: cs) =
      if c = '"' then some ([], cs)
      else if c = '\\' then
        match cs with
        | [] => none
        | e :: cs1 =>
          if e = 'u' then
            match cs1 with
            | h1 :: h2 :: h3 :: h4 :: cs2 =>
              match hexValue h1, hexValue h2, hexValue h3, hexValue h4, jsonReadString cs2 with
              | some a, some b, some c, some d, some (text, rest) =>
                some (Char.ofNat (((a * 16 + b) * 16 + c) * 16 + d) :: text, rest)
              | _, _, _, _, _ => none
            | _ => none
          else
            match jsonUnescape e, jsonReadString cs1 with
            | some ch, some (text, rest) => some (ch :: text, rest)
            | _, _ => none
      else if c.toNat < 32 then none
      else
        match jsonReadString cs with
        | some (text, rest) => some (c :: text, rest)
        | none => none := by
  rw [jsonReadString.eq_def]

theorem jsonReadString_escapeChar (c : Char) (tail text rest : List Char)
    (h : jsonReadString tail = some (text, rest)) :
    jsonReadString (jsonEscapeChar c ++ tail) = some (c :: text, rest) := by
  unfold jsonEscapeChar
  split_ifs with h1 h2 h3 h4 h5 h6 h7 h8
  · subst h1; simp [jsonReadString_cons, jsonUnescape, h]
  · subst h2; simp [jsonReadString_cons, jsonUnescape, h]
  · subst h3; simp [jsonReadString_cons, jsonUnescape, h]
  · subst h4; simp [jsonReadString_cons, jsonUnescape, h]
  · subst h5; simp [jsonReadString_cons, jsonUnescape, h]
  · subst h6; simp [jsonReadString_cons, jsonUnescape, h]
  · subst h7; simp [jsonReadString_cons, jsonUnescape, h]
  · have hd1 : c.toNat / 16 < 16 := by omega
    have hd2 : c.toNat % 16 < 16 := Nat.mod_lt _ (by decide)
    have e0 : hexValue '0' = some 0 := by decide
    have hu : ('\\' = '"') = False := by decide
    simp only [List.cons_append, List.nil_append, jsonReadString_cons, hu, if_false, if_true,
      e0, hexValue_hexDigit _ hd1, hexValue_hexDigit _ hd2, h]
    have : ((0 * 16 + 0) * 16 + c.toNat / 16) * 16 + c.toNat % 16 = c.toNat := by omega
    rw [this, Char.ofNat_toNat]
  · simp [jsonReadString_cons, h1, h2, h8, h]

theorem jsonReadString_escape (text rest : List Char) :
    jsonReadString (jsonEscape text ++ '"' :: rest) = some (text, rest) := by
  induction text with
  | nil => simp [jsonEscape, jsonReadString_cons]
  | cons c cs ih =>
    rw [jsonEscape, List.append_assoc]
    exact jsonReadString_escapeChar c _ cs rest ih

theorem takeWhile_append_of_stop {p : Char → Bool} (a : List Char) (c : Char) (r : List Char)
    (ha : ∀ x ∈ a, p x = true) (hc : p c = false) :
    (a ++ c :: r).takeWhile p = a ∧ (a ++ c :: r).dropWhile p = c :: r := by
  induction a with
  | nil => simp [List.takeWhile_cons, List.dropWhile_cons, hc]
  | cons x xs ih =>
    have hx : p x = true := ha x (by simp)
    have := ih (fun y hy => ha y (by simp [hy]))
    simp [List.takeWhile_cons, List.dropWhile_cons, hx, this]

theorem isNumChar_not_ws (c : Char) (h : isNumChar c = true) : isWs c = false := by
  unfold isNumChar at h
  unfold isWs
  simp only [Bool.or_eq_true, decide_eq_true_eq] at h
  simp only [Bool.or_eq_false_iff, decide_eq_false_iff_not]
  rcases h with ((((h | h) | h) | h) | h) | h
  · simp only [Char.isDigit, Bool.and_eq_true, decide_eq_true_eq] at h
    refine ⟨⟨⟨?_, ?_⟩, ?_⟩, ?_⟩ <;> rintro rfl <;> revert h <;> decide
  all_goals subst h; decide

theorem jsonReadValue_value (numStr : JSNum → List Char) (parseNum : List Char → Option ℚ)
    (v : JSVal) (c : Char) (r : List Char) (hv : Readable numStr parseNum v)
    (hc : isNumChar c = false) :
    jsonReadValue parseNum (jsonValue numStr v ++ c :: r) = some (v, c :: r) := by
  cases v with
  | null => simp [jsonValue, jsonReadValue]
  | str s =>
    simp only [jsonValue, jsonQuote, List.cons_append, List.append_assoc, jsonReadValue,
      if_true, List.singleton_append, jsonReadString_escape, List.nil_append]
  | num n =>
    cases n with
    | nan => exact absurd hv id
    | fin q =>
      obtain ⟨hne, hchars, hparse⟩ := hv
      obtain ⟨hd, tl, htok⟩ : ∃ hd tl, numStr (fin q) = hd :: tl := by
        cases hx : numStr (fin q) with
        | nil => exact absurd hx hne
        | cons a b => exact ⟨a, b, rfl⟩
      have hhd : isNumChar hd = true := hchars hd (by rw [htok]; simp)
      have hq : hd ≠ '"' := by rintro rfl; revert hhd; decide
      have hnn : hd ≠ 'n' := by rintro rfl; revert hhd; decide
      obtain ⟨ht, hdr⟩ := takeWhile_append_of_stop (numStr (fin q)) c r hchars hc
      simp only [jsonValue]
      rw [htok] at ht hdr ⊢
      simp only [List.cons_append] at ht hdr ⊢
      have hnull : ¬ ((hd :: (tl ++ c :: r)).take 4 = "null".data) := by
        intro h
        have := congrArg List.head? h
        simp at this
        exact hnn this
      simp only [jsonReadValue, hq, if_false, hnull, hhd, if_true, ht, hdr]
      rw [← htok, hparse]


theorem skipWs_jsonValue (numStr : JSNum → List Char) (parseNum : List Char → Option ℚ)
    (v : JSVal) (tail : List Char) (hv : Readable numStr parseNum v) :
    skipWs (jsonValue numStr v ++ tail) = jsonValue numStr v ++ tail := by
  cases v with
  | null => exact skipWs_cons_of_not_ws _ _ (by decide)
  | str s => exact skipWs_cons_of_not_ws _ _ (by decide)
  | num n =>
    cases n with
    | nan => exact absurd hv id
    | fin q =>
      obtain ⟨hne, hchars, _⟩ := hv
      simp only [jsonValue]
      cases hx : numStr (fin q) with
      | nil => exact absurd hx hne
      | cons a b =>
        exact skipWs_cons_of_not_ws _ _ (isNumChar_not_ws a (hchars a (by rw [hx]; simp)))

theorem jsonReadMembers_skipWs (parseNum : List Char → Option ℚ) (fuel : Nat)
    (acc : JSObject) (input : List Char) :
    jsonReadMembers parseNum fuel acc (skipWs input) =
      jsonReadMembers parseNum fuel acc input := by
  cases fuel with
  | zero => rfl
  | succ f => simp only [jsonReadMembers, skipWs_idem]

theorem jsonReadMembers_step (parseNum : List Char → Option ℚ) (fuel : Nat)
    (acc : JSObject) (input : List Char) (key r1 r2 r3 r4 : List Char) (v : JSVal) (c3 : Char)
    (h1 : skipWs input = '"' :: (jsonEscape key ++ '"' :: r1))
    (h2 : skipWs r1 = ':' :: r2)
    (h3 : jsonReadValue parseNum (skipWs r2) = some (v, r3))
    (h4 : skipWs r3 = c3 :: r4) :
    jsonReadMembers parseNum (fuel + 1) acc input =
      if c3 = ',' then jsonReadMembers parseNum fuel (objSet acc (String.mk key) v) r4
      else if c3 = '}' then some (objSet acc (String.mk key) v, r4)
      else none := by
  simp only [jsonReadMembers, h1, if_true, jsonReadString_escape, h2, h3, h4]

theorem jsonReadMembers_members (numStr : JSNum → List Char)
    (parseNum : List Char → Option ℚ) (m : String × JSVal) (ms : List (String × JSVal))
    (fuel : Nat) (hfuel : ms.length < fuel) (acc : JSObject) (rest : List Char)
    (hread : ∀ p ∈ m :: ms, Readable numStr parseNum p.2) :
    jsonReadMembers parseNum fuel acc
        (jsJoin ",\n".data
            ((m :: ms).map (fun p =>
              "    ".data ++ jsonQuote p.1.data ++ ": ".data ++ jsonValue numStr p.2)) ++
          "\n  \x7d".data ++ rest) =
      some ((m :: ms).foldl (fun o p => objSet o p.1 p.2) acc, rest) := by
  induction ms generalizing m fuel acc with
  | nil =>
    obtain ⟨f, rfl⟩ : ∃ f, fuel = f + 1 := ⟨fuel - 1, by simp at hfuel; omega⟩
    have hv := hread m (by simp)
    rw [jsonReadMembers_step parseNum f acc _ m.1.data
      (": ".data ++ jsonValue numStr m.2 ++ "\n  \x7d".data ++ rest)
      (" ".data ++ jsonValue numStr m.2 ++ "\n  \x7d".data ++ rest)
      ("\n  \x7d".data ++ rest) rest m.2 '}']
    · simp
    · simp only [List.map_cons, List.map_nil, jsJoin, jsonQuote, List.append_assoc]
      exact (skipWs_space _).trans ((skipWs_space _).trans ((skipWs_space _).trans
        ((skipWs_space _).trans ((skipWs_quote _).trans (by simp)))))
    · exact skipWs_cons_of_not_ws _ _ (by decide)
    · have : skipWs (" ".data ++ jsonValue numStr m.2 ++ "\n  \x7d".data ++ rest) =
          skipWs (jsonValue numStr m.2 ++ ("\n  \x7d".data ++ rest)) := by
        simp only [List.append_assoc]; rfl
      rw [this, skipWs_jsonValue numStr parseNum _ _ hv]
      exact jsonReadValue_value numStr parseNum m.2 '\n' _ hv (by decide)
    · exact (skipWs_newline _).trans ((skipWs_space _).trans ((skipWs_space _).trans
        (skipWs_cons_of_not_ws _ _ (by decide))))
  | cons m2 ms ih =>
    obtain ⟨f, rfl⟩ : ∃ f, fuel = f + 1 := ⟨fuel - 1, by simp at hfuel; omega⟩
    have hv := hread m (by simp)
    have hne : (m2 :: ms).map (fun p =>
        "    ".data ++ jsonQuote p.1.data ++ ": ".data ++ jsonValue numStr p.2) ≠ [] := by simp
    rw [List.map_cons, jsJoin_cons_of_ne_nil _ _ _ hne]
    generalize hnext : jsJoin ",\n".data ((m2 :: ms).map (fun p =>
        "    ".data ++ jsonQuote p.1.data ++ ": ".data ++ jsonValue numStr p.2)) = next at *
    rw [jsonReadMembers_step parseNum f acc _ m.1.data
      (": ".data ++ jsonValue numStr m.2 ++ ",\n".data ++ next ++ "\n  \x7d".data ++ rest)
      (" ".data ++ jsonValue numStr m.2 ++ ",\n".data ++ next ++ "\n  \x7d".data ++ rest)
      (",\n".data ++ next ++ "\n  \x7d".data ++ rest)
      ("\n".data ++ next ++ "\n  \x7d".data ++ rest) m.2 ',']
    · simp only [if_true, List.foldl_cons]
      have : jsonReadMembers parseNum f (objSet acc m.1 m.2)
            ("\n".data ++ next ++ "\n  \x7d".data ++ rest) =
          jsonReadMembers parseNum f (objSet acc m.1 m.2) (next ++ "\n  \x7d".data ++ rest) := by
        have hs : skipWs ("\n".data ++ next ++ "\n  \x7d".data ++ rest) =
            skipWs (next ++ "\n  \x7d".data ++ rest) := by
          simp only [List.append_assoc]
          exact skipWs_newline _
        rw [← jsonReadMembers_skipWs parseNum f _ ("\n".data ++ next ++ "\n  \x7d".data ++ rest),
          hs, jsonReadMembers_skipWs]
      rw [this, ← hnext]
      exact ih m2 f (by simp at hfuel; omega) _ (fun p hp => hread p (by simp [hp]))
    · simp only [jsonQuote, List.append_assoc]
      exact (skipWs_space _).trans ((skipWs_space _).trans ((skipWs_space _).trans
        ((skipWs_space _).trans ((skipWs_quote _).trans (by simp)))))
    · simp only [List.append_assoc]
      exact skipWs_cons_of_not_ws _ _ (by decide)
    · have : skipWs (" ".data ++ jsonValue numStr m.2 ++ ",\n".data ++ next ++ "\n  \x7d".data ++ rest) =
          skipWs (jsonValue numStr m.2 ++ (",\n".data ++ next ++ "\n  \x7d".data ++ rest)) := by
        simp only [List.append_assoc]; rfl
      rw [this, skipWs_jsonValue numStr parseNum _ _ hv]
      have := jsonReadValue_value numStr parseNum m.2 ','
        ("\n".data ++ next ++ "\n  \x7d".data ++ rest) hv (by decide)
      simpa [List.append_assoc] using this
    · simp only [List.append_assoc]
      exact skipWs_cons_of_not_ws _ _ (by decide)


theorem jsJoin_map_length_ge (sep : List Char) {α : Type} (f : α → List Char) (l : List α)
    (hf : ∀ x ∈ l, 1 ≤ (f x).length) : l.length ≤ (jsJoin sep (l.map f)).length := by
  induction l with
  | nil => simp [jsJoin]
  | cons x xs ih =>
    have h1 := hf x (by simp)
    have h2 := ih (fun y hy => hf y (by simp [hy]))
    cases xs with
    | nil => simpa [jsJoin] using h1
    | cons y ys =>
      rw [List.map_cons, jsJoin_cons_of_ne_nil _ _ _ (by simp)]
      simp only [List.length_append, List.length_cons] at *
      omega

theorem jsonReadObject_skipWs (parseNum : List Char → Option ℚ) (input : List Char) :
    jsonReadObject parseNum (skipWs input) = jsonReadObject parseNum input := by
  simp only [jsonReadObject, skipWs_idem]

theorem jsonReadObject_object (numStr : JSNum → List Char) (parseNum : List Char → Option ℚ)
    (o : JSObject) (ho : o ≠ []) (hread : ∀ p ∈ o, Readable numStr parseNum p.2)
    (rest : List Char) :
    jsonReadObject parseNum (jsonObject numStr o ++ rest) =
      some (o.foldl (fun a p => objSet a p.1 p.2) [], rest) := by
  cases o with
  | nil => exact absurd rfl ho
  | cons m ms =>
    generalize hmem : jsJoin ",\n".data ((m :: ms).map (fun p =>
        "    ".data ++ jsonQuote p.1.data ++ ": ".data ++ jsonValue numStr p.2)) = mem
    have hlen : ms.length < mem.length := by
      have := jsJoin_map_length_ge ",\n".data (fun p : String × JSVal =>
        "    ".data ++ jsonQuote p.1.data ++ ": ".data ++ jsonValue numStr p.2) (m :: ms)
        (fun x _ => by simp)
      rw [hmem] at this
      simpa using this
    have hkey := jsonReadMembers_members numStr parseNum m ms
      ('\n' :: (mem ++ "\n  \x7d".data ++ rest)).length (by simp; omega) [] rest hread
    rw [hmem] at hkey
    have hin : jsonObject numStr (m :: ms) ++ rest =
        '{' :: '\n' :: (mem ++ "\n  \x7d".data ++ rest) := by
      have : jsonObject numStr (m :: ms) = "\x7b\n".data ++ mem ++ "\n  \x7d".data := by
        rw [← hmem]; rfl
      rw [this]
      simp only [List.append_assoc]
      rfl
    have hstart : ∃ tl, skipWs ('\n' :: (mem ++ "\n  \x7d".data ++ rest)) = '"' :: tl := by
      rw [← hmem, List.map_cons, jsJoin_cons]
      simp only [List.append_assoc, jsonQuote]
      exact ⟨_, (skipWs_newline _).trans ((skipWs_space _).trans ((skipWs_space _).trans
        ((skipWs_space _).trans ((skipWs_space _).trans (skipWs_quote _)))))⟩
    obtain ⟨tl, htl⟩ := hstart
    rw [hin]
    have h0 : skipWs ('{' :: '\n' :: (mem ++ "\n  \x7d".data ++ rest)) =
        '{' :: '\n' :: (mem ++ "\n  \x7d".data ++ rest) := skipWs_cons_of_not_ws _ _ (by decide)
    have hq : ('"' = '}') = False := by decide
    simp only [jsonReadObject, h0, if_true, htl, hq, if_false]
    rw [← jsonReadMembers_skipWs, skipWs_newline, jsonReadMembers_skipWs]
    exact hkey

theorem jsonReadElements_skipWs (parseNum : List Char → Option ℚ) (fuel : Nat)
    (input : List Char) :
    jsonReadElements parseNum fuel (skipWs input) = jsonReadElements parseNum fuel input := by
  cases fuel with
  | zero => rfl
  | succ f => simp only [jsonReadElements, jsonReadObject_skipWs]

theorem jsonReadElements_elements (numStr : JSNum → List Char)
    (parseNum : List Char → Option ℚ) (o : JSObject) (os : List JSObject)
    (fuel : Nat) (hfuel : os.length < fuel) (rest : List Char)
    (hread : ∀ x ∈ o :: os, x ≠ [] ∧ ∀ p ∈ x, Readable numStr parseNum p.2) :
    jsonReadElements parseNum fuel
        (jsJoin ",\n".data ((o :: os).map (fun x => "  ".data ++ jsonObject numStr x)) ++
          "\n]".data ++ rest) =
      some ((o :: os).map (fun x => x.foldl (fun a p => objSet a p.1 p.2) []), rest) := by
  induction os generalizing o fuel with
  | nil =>
    obtain ⟨f, rfl⟩ : ∃ f, fuel = f + 1 := ⟨fuel - 1, by simp at hfuel; omega⟩
    obtain ⟨ho, hv⟩ := hread o (by simp)
    have hobj : jsonReadObject parseNum
        ("  ".data ++ jsonObject numStr o ++ "\n]".data ++ rest) =
        some (o.foldl (fun a p => objSet a p.1 p.2) [], "\n]".data ++ rest) := by
      rw [← jsonReadObject_skipWs]
      have : skipWs ("  ".data ++ jsonObject numStr o ++ "\n]".data ++ rest) =
          skipWs (jsonObject numStr o ++ ("\n]".data ++ rest)) := by
        simp only [List.append_assoc]
        exact (skipWs_space _).trans (skipWs_space _)
      rw [this, jsonReadObject_skipWs]
      exact jsonReadObject_object numStr parseNum o ho hv _
    have hs : skipWs ("\n]".data ++ rest) = ']' :: rest :=
      (skipWs_newline _).trans (skipWs_cons_of_not_ws _ _ (by decide))
    have hq : (']' = ',') = False := by decide
    simp only [List.map_cons, List.map_nil, jsJoin, jsonReadElements, hobj, hs, hq, if_false,
      if_true]
  | cons o2 os ih =>
    obtain ⟨f, rfl⟩ : ∃ f, fuel = f + 1 := ⟨fuel - 1, by simp at hfuel; omega⟩
    obtain ⟨ho, hv⟩ := hread o (by simp)
    have hne : (o2 :: os).map (fun x => "  ".data ++ jsonObject numStr x) ≠ [] := by simp
    rw [List.map_cons, jsJoin_cons_of_ne_nil _ _ _ hne]
    have hih := ih o2 f (by simp at hfuel; omega) (fun x hx => hread x (by simp [hx]))
    generalize jsJoin ",\n".data ((o2 :: os).map (fun x =>
        "  ".data ++ jsonObject numStr x)) = next at *
    have hobj : jsonReadObject parseNum
        ("  ".data ++ jsonObject numStr o ++ ",\n".data ++ next ++ "\n]".data ++ rest) =
        some (o.foldl (fun a p => objSet a p.1 p.2) [],
          ",\n".data ++ next ++ "\n]".data ++ rest) := by
      rw [← jsonReadObject_skipWs]
      have : skipWs ("  ".data ++ jsonObject numStr o ++ ",\n".data ++ next ++ "\n]".data ++ rest) =
          skipWs (jsonObject numStr o ++ (",\n".data ++ next ++ "\n]".data ++ rest)) := by
        simp only [List.append_assoc]
        exact (skipWs_space _).trans (skipWs_space _)
      rw [this, jsonReadObject_skipWs]
      exact jsonReadObject_object numStr parseNum o ho hv _
    have hs : skipWs (",\n".data ++ next ++ "\n]".data ++ rest) =
        ',' :: ("\n".data ++ next ++ "\n]".data ++ rest) := by
      simp only [List.append_assoc]
      exact skipWs_cons_of_not_ws _ _ (by decide)
    have hnext : jsonReadElements parseNum f ("\n".data ++ next ++ "\n]".data ++ rest) =
        jsonReadElements parseNum f (next ++ "\n]".data ++ rest) := by
      have hs2 : skipWs ("\n".data ++ next ++ "\n]".data ++ rest) =
          skipWs (next ++ "\n]".data ++ rest) := by
        simp only [List.append_assoc]
        exact skipWs_newline _
      rw [← jsonReadElements_skipWs, hs2, jsonReadElements_skipWs]
    simp only [jsonReadElements, hobj, hs, if_true, hnext, hih, List.map_cons]

theorem jsonParse_stringify (numStr : JSNum → List Char) (parseNum : List Char → Option ℚ)
    (payload : List JSObject)
    (hread : ∀ x ∈ payload, x ≠ [] ∧ ∀ p ∈ x, Readable numStr parseNum p.2) :
    jsonParse parseNum (jsonStringify numStr payload) =
      some (payload.map (fun x => x.foldl (fun a p => objSet a p.1 p.2) [])) := by
  cases payload with
  | nil => rfl
  | cons o os =>
    generalize hel : jsJoin ",\n".data ((o :: os).map (fun x =>
        "  ".data ++ jsonObject numStr x)) = el
    have hlen : os.length < el.length := by
      have := jsJoin_map_length_ge ",\n".data (fun x : JSObject =>
        "  ".data ++ jsonObject numStr x) (o :: os) (fun x _ => by simp)
      rw [hel] at this
      simpa using this
    have hkey := jsonReadElements_elements numStr parseNum o os
      ('\n' :: (el ++ "\n]".data)).length (by simp; omega) [] hread
    rw [hel, List.append_nil] at hkey
    have hin : jsonStringify numStr (o :: os) = '[' :: '\n' :: (el ++ "\n]".data) := by
      have : jsonStringify numStr (o :: os) = "[\n".data ++ el ++ "\n]".data := by
        rw [← hel]; rfl
      rw [this]
      simp only [List.append_assoc]
      rfl
    obtain ⟨ho, _⟩ := hread o (by simp)
    have hstart : ∃ tl, skipWs ('\n' :: (el ++ "\n]".data)) = '{' :: tl := by
      rw [← hel, List.map_cons, jsJoin_cons]
      cases o with
      | nil => exact absurd rfl ho
      | cons m ms =>
        simp only [List.append_assoc, jsonObject]
        exact ⟨_, (skipWs_newline _).trans ((skipWs_space _).trans ((skipWs_space _).trans
          (skipWs_cons_of_not_ws _ _ (by decide))))⟩
    obtain ⟨tl, htl⟩ := hstart
    have h0 : skipWs ('[' :: '\n' :: (el ++ "\n]".data)) =
        '[' :: '\n' :: (el ++ "\n]".data) := skipWs_cons_of_not_ws _ _ (by decide)
    have hq : ('{' = ']') = False := by decide
    rw [hin]
    simp only [jsonParse, h0, if_true, htl, hq, if_false]
    rw [← jsonReadElements_skipWs, skipWs_newline, jsonReadElements_skipWs, hkey]
    rfl


/-! ## The payload of `exportJSON` -/

theorem payloadOf_toObject (r : Row) :
    payloadOf r.toObject =
      [("id", JSVal.str r.id), ("desc", JSVal.str r.desc), ("uom", JSVal.str r.uom),
       ("planned", JSVal.num r.planned), ("assigned", JSVal.num r.assigned),
       ("issued", JSVal.num r.issued), ("total", JSVal.num r.total),
       ("retour", JSVal.num r.retour), ("consomme", JSVal.num r.consomme)] := by
  simp [payloadOf, Row.toObject, Material.toObject, objSet, objRemove, objGet]

theorem foldl_objSet_payload (r : Row) :
    ([("id", JSVal.str r.id), ("desc", JSVal.str r.desc), ("uom", JSVal.str r.uom),
       ("planned", JSVal.num r.planned), ("assigned", JSVal.num r.assigned),
       ("issued", JSVal.num r.issued), ("total", JSVal.num r.total),
       ("retour", JSVal.num r.retour), ("consomme", JSVal.num r.consomme)] :
        JSObject).foldl (fun a p => objSet a p.1 p.2) [] =
      [("id", JSVal.str r.id), ("desc", JSVal.str r.desc), ("uom", JSVal.str r.uom),
       ("planned", JSVal.num r.planned), ("assigned", JSVal.num r.assigned),
       ("issued", JSVal.num r.issued), ("total", JSVal.num r.total),
       ("retour", JSVal.num r.retour), ("consomme", JSVal.num r.consomme)] := by
  simp [objSet]

theorem deriveRow_fields (item : Material) :
    (deriveRow item).id = item.id ∧ (deriveRow item).desc = item.desc ∧
    (deriveRow item).uom = item.uom ∧ (deriveRow item).planned = item.planned ∧
    (deriveRow item).assigned = item.assigned ∧ (deriveRow item).issued = item.issued ∧
    (deriveRow item).total = item.total ∧
    (deriveRow item).retour ≠ nan ∧ (deriveRow item).consomme ≠ nan := by
  refine ⟨rfl, rfl, rfl, rfl, rfl, rfl, rfl, ?_, ?_⟩
  · simp only [deriveRow]
    cases Number item.retour <;> simp
  · simp only [deriveRow]
    cases item.assigned - clampNonNeg (Number item.retour) <;> simp

theorem json_keys_payload (materials : List Material) :
    exportJSONPayload (computedRows materials) =
      (computedRows materials).map (fun r =>
        [("id", JSVal.str r.id), ("desc", JSVal.str r.desc), ("uom", JSVal.str r.uom),
         ("planned", JSVal.num r.planned), ("assigned", JSVal.num r.assigned),
         ("issued", JSVal.num r.issued), ("total", JSVal.num r.total),
         ("retour", JSVal.num r.retour), ("consomme", JSVal.num r.consomme)]) := by
  unfold exportJSONPayload
  exact List.map_congr_left (fun r _ => payloadOf_toObject r)

/-- C7, as amended: the payload of `exportJSON` has one object per derived row, in input
order, whose keys are exactly `id, desc, uom, planned, assigned, issued, total, retour,
consomme` in that order, with no `delta` and no `deltaPercent` key; `JSON.stringify`
writes each object with these keys in this order, and the empty row set gives `[]`. -/
theorem json_keys (numStr : JSNum → List Char) (materials : List Material) :
    exportJSONPayload (computedRows materials) =
      (computedRows materials).map (fun r =>
        [("id", JSVal.str r.id), ("desc", JSVal.str r.desc), ("uom", JSVal.str r.uom),
         ("planned", JSVal.num r.planned), ("assigned", JSVal.num r.assigned),
         ("issued", JSVal.num r.issued), ("total", JSVal.num r.total),
         ("retour", JSVal.num r.retour), ("consomme", JSVal.num r.consomme)]) ∧
    (exportJSONPayload (computedRows materials)).length = materials.length ∧
    (∀ o ∈ exportJSONPayload (computedRows materials),
      o.map Prod.fst =
          ["id", "desc", "uom", "planned", "assigned", "issued", "total", "retour",
            "consomme"] ∧
        objGet o "delta" = none ∧ objGet o "deltaPercent" = none) ∧
    (∀ r ∈ computedRows materials,
      jsonObject numStr (payloadOf r.toObject) =
        "\x7b\n    \"id\": ".data ++ jsonQuote r.id.data ++
        ",\n    \"desc\": ".data ++ jsonQuote r.desc.data ++
        ",\n    \"uom\": ".data ++ jsonQuote r.uom.data ++
        ",\n    \"planned\": ".data ++ jsonValue numStr (JSVal.num r.planned) ++
        ",\n    \"assigned\": ".data ++ jsonValue numStr (JSVal.num r.assigned) ++
        ",\n    \"issued\": ".data ++ jsonValue numStr (JSVal.num r.issued) ++
        ",\n    \"total\": ".data ++ jsonValue numStr (JSVal.num r.total) ++
        ",\n    \"retour\": ".data ++ jsonValue numStr (JSVal.num r.retour) ++
        ",\n    \"consomme\": ".data ++ jsonValue numStr (JSVal.num r.consomme) ++
        "\n  \x7d".data) ∧
    exportJSON numStr [] = "[]".data := by
  have hp := json_keys_payload materials
  refine ⟨hp, by simp [exportJSONPayload, computedRows], ?_, ?_, rfl⟩
  · intro o ho
    rw [hp, List.mem_map] at ho
    obtain ⟨r, _, rfl⟩ := ho
    simp [objGet]
  · intro r _
    rw [payloadOf_toObject]
    have k1 : jsonEscape "id".data = "id".data := by decide
    have k2 : jsonEscape "desc".data = "desc".data := by decide
    have k3 : jsonEscape "uom".data = "uom".data := by decide
    have k4 : jsonEscape "planned".data = "planned".data := by decide
    have k5 : jsonEscape "assigned".data = "assigned".data := by decide
    have k6 : jsonEscape "issued".data = "issued".data := by decide
    have k7 : jsonEscape "total".data = "total".data := by decide
    have k8 : jsonEscape "retour".data = "retour".data := by decide
    have k9 : jsonEscape "consomme".data = "consomme".data := by decide
    simp only [jsonObject, List.map, jsJoin, jsonQuote, k1, k2, k3, k4, k5, k6, k7, k8, k9]
    simp [List.append_assoc, jsonValue, jsonQuote]

/-- C7 as stated fails: for the record `recA` the keys of the emitted object are not
`id, description, unitOfMeasure, planned, assigned, issued, total, retour, consommé`. -/
theorem json_keys_counterexample :
    (exportJSONPayload (computedRows [recA])).map (fun o => o.map Prod.fst) ≠
      [["id", "description", "unitOfMeasure", "planned", "assigned", "issued", "total",
        "retour", "consommé"]] := by
  decide

/-- C1 at the records of the specification's examples: `{assigned: 100, retour: 40}` gives
`consomme = 60`, `delta = -40`; `{assigned: 0, retour: 5}` gives `consomme = 0`,
`delta = 0`. -/
theorem deriveRow_eq_spec_witness :
    (fin 0 ≤ recA.assigned ∧ fin 0 ≤ recA.retour) ∧
    (deriveRow recA = specDeriveRow recA ∧ fin 0 ≤ (deriveRow recA).consomme) ∧
    (deriveRow recA).consomme = fin 60 ∧ (deriveRow recA).delta = fin (-40) ∧
    (fin 0 ≤ recB.assigned ∧ fin 0 ≤ recB.retour) ∧
    (deriveRow recB = specDeriveRow recB ∧ fin 0 ≤ (deriveRow recB).consomme) ∧
    (deriveRow recB).consomme = fin 0 ∧ (deriveRow recB).delta = fin 0 := by
  have hA := deriveRow_eq_spec recA (by decide) (by decide)
  have hB := deriveRow_eq_spec recB (by decide) (by decide)
  refine ⟨⟨by decide, by decide⟩, hA, ?_, ?_, ⟨by decide, by decide⟩, hB, ?_, ?_⟩
  · rw [hA.1]; norm_num [specDeriveRow, recA]
  · rw [hA.1]; norm_num [specDeriveRow, recA]
  · rw [hB.1]; norm_num [specDeriveRow, recB]
  · rw [hB.1]; norm_num [specDeriveRow, recB]

/-- C3 at the two sample records: the raw values `abc` and `-3` store 0, the raw value
`12` stores 12. -/
theorem setRetour_clamps_witness :
    (∃ m ∈ [recA, recB], m.id = "A") ∧
    ((∃ m ∈ handleRetourChange sampleNumber [recA, recB] "A" "abc", m.id = "A") ∧
      ∀ m ∈ handleRetourChange sampleNumber [recA, recB] "A" "abc", m.id = "A" →
        m.retour =
            (if (sampleNumber "abc").isNaN = true ∨ sampleNumber "abc" < fin 0 then fin 0
             else sampleNumber "abc") ∧
          fin 0 ≤ m.retour) ∧
    sampleNumber "abc" = nan ∧ sampleNumber "-3" = fin (-3) ∧ sampleNumber "12" = fin 12 ∧
    handleRetourChange sampleNumber [recA, recB] "A" "abc" =
      [{ recA with retour := fin 0 }, recB] ∧
    handleRetourChange sampleNumber [recA, recB] "A" "-3" =
      [{ recA with retour := fin 0 }, recB] ∧
    handleRetourChange sampleNumber [recA, recB] "A" "12" =
      [{ recA with retour := fin 12 }, recB] :=
  ⟨⟨recA, by simp, rfl⟩,
    setRetour_clamps sampleNumber [recA, recB] "A" "abc" ⟨recA, by simp, rfl⟩,
    by decide, by decide, by decide,
    by
      have h : sampleNumber "abc" = nan := by decide
      simp [handleRetourChange, updateRetour, h, recA, recB],
    by
      have h : sampleNumber "-3" = fin (-3) := by decide
      simp [handleRetourChange, updateRetour, h, recA, recB],
    by
      have h : sampleNumber "12" = fin 12 := by decide
      simp [handleRetourChange, updateRetour, h, recA, recB]⟩

/-- C4 at the record with `assigned = 7`: `zero` stores 0, `assigned` stores 7, `half`
stores `Math.round(3.5) = 4`. -/
theorem quickSet_modes_witness :
    (([recA, recB, recOdd].map (·.id)).Nodup ∧ recOdd.id = "C" ∧ fin 0 ≤ recOdd.assigned) ∧
    (handleQuickSet [recA, recB, recOdd] "C" "zero")[2]? =
      some { recOdd with retour := fin 0 } ∧
    (handleQuickSet [recA, recB, recOdd] "C" "assigned")[2]? =
      some { recOdd with retour := fin 7 } ∧
    (handleQuickSet [recA, recB, recOdd] "C" "half")[2]? =
      some { recOdd with retour := fin 4 } := by
  have hn : ([recA, recB, recOdd].map (·.id)).Nodup := by decide
  have h := quickSet_modes [recA, recB, recOdd] "C" hn 2 (by decide) rfl (by decide)
  refine ⟨⟨hn, rfl, by decide⟩, h.1, h.2.1, ?_⟩
  have h3 := h.2.2.2.2 3 (by norm_num [recOdd])
  rw [h3]
  norm_num

/-- C5 at the two sample records: an id that no record has, and a mode that is none of
the three, leave the collection as it is. -/
theorem edits_frame_witness :
    (∀ m ∈ [recA, recB], m.id ≠ "Z") ∧
    handleRetourChange sampleNumber [recA, recB] "Z" "12" = [recA, recB] ∧
    handleQuickSet [recA, recB] "Z" "half" = [recA, recB] ∧
    handleQuickSet [recA, recB] "A" "double" = [recA, recB] := by
  have habs : ∀ m ∈ [recA, recB], m.id ≠ "Z" := by decide
  have h := (edits_frame sampleNumber [recA, recB] "Z" "12" "half").2.2.2.1 habs
  have h2 := (edits_frame sampleNumber [recA, recB] "A" "12" "double").2.2.2.2
    (by decide) (by decide) (by decide)
  exact ⟨habs, h.1, h.2, h2⟩

/-- C2 at the two records of the specification's example: the totals are
`assigned = 100`, `retour = 45`, `consomme = 60`. -/
theorem deriveAll_map_fold_witness :
    (deriveAll [recA, recB]).2.assigned = fin 100 ∧
    (deriveAll [recA, recB]).2.retour = fin 45 ∧
    (deriveAll [recA, recB]).2.consomme = fin 60 := by
  have h := (deriveAll_map_fold [recA, recB]).2.2.2.1
  rw [h]
  norm_num [sumOf, deriveAll, computedRows, deriveRow, recA, recB, Number, percentDeviation]

theorem computedRows_initialMaterials :
    computedRows initialMaterials =
      [{ id := "000123451", desc := "CARTON SECONDARY 1", uom := "EA", planned := fin 16530,
         assigned := fin 2160, issued := fin 100, total := fin 2060, retour := fin 100,
         consomme := fin 2060, delta := fin (-125 / 27) },
       { id := "000123452", desc := "ETIQUETTES PRIMAIRES", uom := "EA",
         planned := fin 10000, assigned := fin 9800, issued := fin 0, total := fin 9800,
         retour := fin 0, consomme := fin 9800, delta := fin 0 },
       { id := "000123453", desc := "BOUTEILLES VERRE 0.6", uom := "EA",
         planned := fin 16530, assigned := fin 16200, issued := fin 0, total := fin 16200,
         retour := fin 0, consomme := fin 16200, delta := fin 0 }] := by
  norm_num [computedRows, initialMaterials, deriveRow, Number, percentDeviation]

theorem toFixed_sample_first : toFixed sampleNumStr 2 (fin (-125 / 27)) = "-4.63".data := by
  have h : ⌊(|(-125 / 27 : ℚ)| * 10 ^ 2 + 1 / 2)⌋ = 463 := by
    rw [Int.floor_eq_iff]; norm_num [abs_of_neg]
  have h2 : ¬ ((10 : ℚ) ^ 21 ≤ |(-125 / 27 : ℚ)|) := by norm_num [abs_of_neg]
  have h3 : ((-125 / 27 : ℚ) < 0) := by norm_num
  simp only [toFixed, h, h2, h3, if_false, if_true]
  decide

theorem toFixed_sample_zero : toFixed sampleNumStr 2 (fin 0) = "0.00".data := by
  have h : ⌊(|(0 : ℚ)| * 10 ^ 2 + 1 / 2)⌋ = 0 := by
    rw [Int.floor_eq_iff]; norm_num
  have h2 : ¬ ((10 : ℚ) ^ 21 ≤ |(0 : ℚ)|) := by norm_num
  simp only [toFixed, h, h2, if_false, lt_irrefl]
  decide

set_option maxRecDepth 100000 in
/-- C6 at `initialMaterials`: the whole CSV document, character by character. -/
theorem csv_layout_witness :
    exportCSV sampleNumStr initialMaterials =
      ("\"Material\";\"Description\";\"UoM\";\"Planned\";\"Assigned\";\"Issued\";\"Total\";\"Retour\";\"Consomme\";\"Delta (%)\"\n" ++
       "\"000123451\";\"CARTON SECONDARY 1\";\"EA\";\"16530\";\"2160\";\"100\";\"2060\";\"100\";\"2060\";\"-4.63\"\n" ++
       "\"000123452\";\"ETIQUETTES PRIMAIRES\";\"EA\";\"10000\";\"9800\";\"0\";\"9800\";\"0\";\"9800\";\"0.00\"\n" ++
       "\"000123453\";\"BOUTEILLES VERRE 0.6\";\"EA\";\"16530\";\"16200\";\"0\";\"16200\";\"0\";\"16200\";\"0.00\"").data := by
  rw [(csv_layout sampleNumStr initialMaterials).1, computedRows_initialMaterials]
  simp only [List.map_cons, List.map_nil, toFixed_sample_first, toFixed_sample_zero]
  decide

set_option maxRecDepth 100000 in
/-- C7 (amended) at the record `recA`: the whole JSON document, character by
character. -/
theorem json_keys_witness :
    exportJSON sampleNumStr [recA] =
      "[\n  \x7b\n    \"id\": \"A\",\n    \"desc\": \"\",\n    \"uom\": \"EA\",\n    \"planned\": 0,\n    \"assigned\": 100,\n    \"issued\": 0,\n    \"total\": 0,\n    \"retour\": 40,\n    \"consomme\": 60\n  \x7d\n]".data := by
  have hrow : computedRows [recA] =
      [{ id := "A", desc := "", uom := "EA", planned := fin 0, assigned := fin 100,
         issued := fin 0, total := fin 0, retour := fin 40, consomme := fin 60,
         delta := fin (-40) }] := by
    norm_num [computedRows, recA, deriveRow, Number, percentDeviation]
  rw [exportJSON, (json_keys sampleNumStr [recA]).1, hrow]
  decide

end ConsoRetour
